import Mathlib

/-!
Verification of the RSBSA Toolbelt core pipelines (src/rsbsa_toolbelt.py).

This file is a shallow embedding of the record-linkage / triage pipeline
(Mode 2, `process_masterlist_merger`), the geotag enrichment and finding
classifier (Mode 5, `process_single_geotag_logic`), and the aggregation
keys / age computation of the analytics mode (Mode 4,
`run_regional_analytics_mode4`).

Modelling conventions:
* A spreadsheet cell that may be missing is an `Option String`; pandas
  represents a missing cell as NaN and Python's `str()` renders it as
  the text "nan", which `pyStr` reproduces.
* Numeric columns (areas) are modelled by `Cell`: a number, a text value,
  or NaN.
* Dates that the code parses with `pd.to_datetime(errors="coerce")` are
  modelled post-parse as `Option Int` (a proleptic-Gregorian day number,
  `none` = NaT); `daysFromCivil` supplies concrete day numbers.
* Cosmetic output sorting (by address columns) and spreadsheet styling
  are omitted: every property below is about partition membership and
  per-row values, which that sorting does not affect.
-/

/- ===================== Python string primitives ===================== -/

/-- Python `str()` applied to a possibly-missing pandas cell: a missing
cell is NaN and stringifies to "nan". -/
def pyStr : Option String → String
  | none => "nan"
  | some s => s

/-- Whitespace characters stripped by Python `str.strip()` (ASCII part). -/
def isPySpace (c : Char) : Bool :=
  c == ' ' || c == '\t' || c == '\n' || c == '\r' || c == '\x0b' || c == '\x0c'

def stripChars (l : List Char) : List Char :=
  ((l.dropWhile isPySpace).reverse.dropWhile isPySpace).reverse

/-- Python `str.strip()`. -/
def pyStrip (s : String) : String := ⟨stripChars s.data⟩

/-- Python `str.upper()` (ASCII range, as used by the data at hand). -/
def pyUpper (s : String) : String := ⟨s.data.map Char.toUpper⟩

/-- Python `str.lower()` (ASCII range). -/
def pyLower (s : String) : String := ⟨s.data.map Char.toLower⟩

/-- The normalisation `str(v).strip().upper()` applied throughout the code. -/
def normCell (v : Option String) : String := pyUpper (pyStrip (pyStr v))

/-- Contiguous-sublist test on character lists (Python `in` on strings). -/
def subChars (needle : List Char) : List Char → Bool
  | [] => needle.isEmpty
  | c :: t => needle.isPrefixOf (c :: t) || subChars needle t

/-- Python substring containment `needle in hay`. -/
def containsSub (hay needle : String) : Bool := subChars needle.data hay.data

/- ===================== difflib.SequenceMatcher ===================== -/

/-- Length of the common run at the heads of two character lists. -/
def runLen : List Char → List Char → Nat
  | a :: as, b :: bs => if a == b then runLen as bs + 1 else 0
  | _, _ => 0

/-- Index pairs of the search rectangle, in the scan order of
`SequenceMatcher.find_longest_match` (first index ascending, then second). -/
def blockPairs (alo ahi blo bhi : Nat) : List (Nat × Nat) :=
  (List.range' alo (ahi - alo)).flatMap
    (fun i => (List.range' blo (bhi - blo)).map (fun j => (i, j)))

/-- `find_longest_match` without junk: the longest common block inside
`a[alo:ahi] × b[blo:bhi]`, ties resolved to the earliest start in `a`,
then in `b` (the strict-improvement update of the CPython loop). -/
def findBlock (a b : List Char) (alo ahi blo bhi : Nat) : Nat × Nat × Nat :=
  (blockPairs alo ahi blo bhi).foldl
    (fun best ij =>
      let k := min (runLen (a.drop ij.1) (b.drop ij.2)) (min (ahi - ij.1) (bhi - ij.2))
      if best.2.2 < k then (ij.1, ij.2, k) else best)
    (alo, blo, 0)

/-- Total length matched by the recursive matching-blocks decomposition of
`SequenceMatcher.get_matching_blocks` (no junk, short strings).  The
recursion depth is bounded by the rectangle perimeter
`(ahi - alo) + (bhi - blo)`, which strictly decreases at each recursive
call; the explicit fuel realises that bound structurally (when fuel runs
out the rectangle is empty and `findBlock` returns a zero-length block,
so the 0-fuel branch agrees with the recursion). -/
def matchTotalF (a b : List Char) : Nat → Nat → Nat → Nat → Nat → Nat
  | 0, _, _, _, _ => 0
  | fuel + 1, alo, ahi, blo, bhi =>
    match findBlock a b alo ahi blo bhi with
    | (i, j, k) =>
      if 0 < k then
        matchTotalF a b fuel alo i blo j + k + matchTotalF a b fuel (i + k) ahi (j + k) bhi
      else 0

def matchTotal (a b : List Char) (alo ahi blo bhi : Nat) : Nat :=
  matchTotalF a b ((ahi - alo) + (bhi - blo)) alo ahi blo bhi

/-- `difflib.SequenceMatcher(None, a, b).ratio()`: twice the matched length
over the total length; 1 when both strings are empty. -/
def similar (x y : String) : ℚ :=
  let la := x.data.length
  let lb := y.data.length
  if la + lb = 0 then 1
  else (2 * (matchTotal x.data y.data 0 la 0 lb) : ℚ) / (la + lb)

/-- The comparison `similar(a, b) > 0.85` of the code, with the division
cleared (exact arithmetic over ℕ so that concrete runs evaluate in the
kernel); `simAbove_iff` proves it equivalent to the rational comparison. -/
def simAbove (x y : String) : Bool :=
  let la := x.data.length
  let lb := y.data.length
  if la + lb = 0 then true
  else decide (17 * (la + lb) < 40 * matchTotal x.data y.data 0 la 0 lb)

theorem simAbove_iff (x y : String) :
    simAbove x y = true ↔ (17 / 20 : ℚ) < similar x y := by
  unfold simAbove similar
  by_cases h : x.data.length + y.data.length = 0
  · simp only [if_pos h]
    norm_num
  · simp only [if_neg h, decide_eq_true_eq]
    have hS : 0 < x.data.length + y.data.length := Nat.pos_of_ne_zero h
    have hSq : (0 : ℚ) < (x.data.length : ℚ) + (y.data.length : ℚ) := by exact_mod_cast hS
    rw [div_lt_div_iff₀ (by norm_num) hSq]
    have h2 : (2 : ℚ) * (matchTotal x.data y.data 0 x.data.length 0 y.data.length) * 20 =
        ((40 * matchTotal x.data y.data 0 x.data.length 0 y.data.length : ℕ) : ℚ) := by
      push_cast; ring
    have h3 : (17 : ℚ) * ((x.data.length : ℚ) + (y.data.length : ℚ)) =
        ((17 * (x.data.length + y.data.length) : ℕ) : ℚ) := by
      push_cast; ring
    rw [h2, h3]
    exact_mod_cast Iff.rfl

/- ===================== sorting ===================== -/

/-- Stable insertion of `x` after every element `y` with `le y x`. -/
def insertLe {α : Type} (le : α → α → Bool) (x : α) : List α → List α
  | [] => [x]
  | y :: ys => if le y x then y :: insertLe le x ys else x :: y :: ys

/-- Stable sort by a Boolean comparison (models `sort_values`; the claims
proved below do not depend on the order of key-equal rows, which pandas
leaves unspecified). -/
def isort {α : Type} (le : α → α → Bool) : List α → List α
  | [] => []
  | x :: xs => insertLe le x (isort le xs)

theorem mem_insertLe {α : Type} (le : α → α → Bool) (x a : α) (l : List α) :
    a ∈ insertLe le x l ↔ a = x ∨ a ∈ l := by
  induction l with
  | nil => simp [insertLe]
  | cons y ys ih =>
    unfold insertLe
    by_cases h : le y x = true
    · simp only [if_pos h, List.mem_cons, ih]
      tauto
    · simp only [if_neg h, List.mem_cons]

theorem mem_isort {α : Type} (le : α → α → Bool) (a : α) (l : List α) :
    a ∈ isort le l ↔ a ∈ l := by
  induction l with
  | nil => simp [isort]
  | cons x xs ih => simp [isort, mem_insertLe, ih]

theorem pairwise_insertLe {α : Type} (le : α → α → Bool)
    (htrans : ∀ a b c, le a b = true → le b c = true → le a c = true)
    (htot : ∀ a b, le a b || le b a) (x : α) (l : List α)
    (hl : l.Pairwise (fun a b => le a b = true)) :
    (insertLe le x l).Pairwise (fun a b => le a b = true) := by
  induction l with
  | nil => simp [insertLe]
  | cons y ys ih =>
    unfold insertLe
    rcases List.pairwise_cons.mp hl with ⟨hy, hys⟩
    by_cases h : le y x = true
    · simp only [if_pos h]
      refine List.pairwise_cons.mpr ⟨?_, ih hys⟩
      intro b hb
      rcases (mem_insertLe le x b ys).mp hb with rfl | hb
      · exact h
      · exact hy b hb
    · simp only [if_neg h]
      have hxy : le x y = true := by
        have := htot x y
        cases hxy : le x y with
        | true => rfl
        | false => cases hyx : le y x with
          | true => exact absurd hyx h
          | false => rw [hxy, hyx] at this; simp at this
      refine List.pairwise_cons.mpr ⟨?_, hl⟩
      intro b hb
      rcases List.mem_cons.mp hb with rfl | hb
      · exact hxy
      · exact htrans x y b hxy (hy b hb)

theorem pairwise_isort {α : Type} (le : α → α → Bool)
    (htrans : ∀ a b c, le a b = true → le b c = true → le a c = true)
    (htot : ∀ a b, le a b || le b a) (l : List α) :
    (isort le l).Pairwise (fun a b => le a b = true) := by
  induction l with
  | nil => simp [isort]
  | cons x xs ih => exact pairwise_insertLe le htrans htot x (isort le xs) ih

/-- Code-point comparison of strings (Python `<=` on `str`). -/
def strLeChars : List Char → List Char → Bool
  | [], _ => true
  | _ :: _, [] => false
  | a :: as, b :: bs => if a == b then strLeChars as bs else decide (a.val < b.val)

def strLe (a b : String) : Bool := strLeChars a.data b.data

/- ===================== Mode 2: process_masterlist_merger ===================== -/

/-- A masterlist row (columns lower-cased by the loader).  Each field is a
cell: `none` = NaN.  The model covers tables carrying the full masterlist
schema (in particular a `gender` column, as in the deployed data). -/
structure MRow where
  rsbsa_no : Option String
  first_name : Option String
  last_name : Option String
  birthday : Option String
  gender : Option String
  farmer : Option String
  farmworker : Option String
  fisherfolk : Option String
deriving DecidableEq, Repr

/-- A parcel-list row (original headers; only the columns the merger
reads are modelled). -/
structure PRow where
  ffrs : Option String
  birthdate : Option String
  gender : Option String
  farmer : Option String
  farmworker : Option String
  fisherfolk : Option String
deriving DecidableEq, Repr

/-- `KEY_ID = df_m['rsbsa_no'].astype(str).str.strip().str.upper()`. -/
def keyId (r : MRow) : String := normCell r.rsbsa_no

/-- `KEY_ID = df_p['FFRS System Generated No.'].astype(str).str.strip().str.upper()`. -/
def pKeyId (p : PRow) : String := normCell p.ffrs

/-- `fillna('')` then `astype(str)`. -/
def fillnaStr : Option String → String
  | none => ""
  | some s => s

/-- `LOOSE_SIG = lname.fillna('').astype(str).str.strip().str.upper() + bday.astype(str)`. -/
def looseSig (r : MRow) : String :=
  pyUpper (pyStrip (fillnaStr r.last_name)) ++ pyStr r.birthday

/-- Triage state attached to a masterlist row: `DATA_STATUS`, `ERROR_TAG`,
`CONFLICT_GROUP`; `idx` is the dataframe index of the row. -/
structure TRow where
  idx : Nat
  row : MRow
  status : String
  errorTag : String
  conflictGroup : String
deriving DecidableEq, Repr

def initRows : Nat → List MRow → List TRow
  | _, [] => []
  | n, r :: rs => ⟨n, r, "CLEAN", "", ""⟩ :: initRows (n + 1) rs

def triageInit (ml : List MRow) : List TRow := initRows 0 ml

/-- Strict-duplicate marking: `df_m.duplicated(subset=['KEY_ID'], keep=False)`
flags every row whose `KEY_ID` occurs at least twice. -/
def strictOne (ts : List TRow) (t : TRow) : TRow :=
  if 2 ≤ ts.countP (fun u => keyId u.row == keyId t.row) then
    { t with status := "ERROR",
             errorTag := t.errorTag ++ "[Duplicate RSBSA ID] ",
             conflictGroup := "STRICT-" ++ keyId t.row }
  else t

def strictStep (ts : List TRow) : List TRow := ts.map (strictOne ts)

/-- `str(r.get(m_fname, '')).strip().upper()` on the snapshot row. -/
def fuzzyName (r : MRow) : String := normCell r.first_name

/-- `str(r.get('gender', '')).strip().upper()` on the snapshot row. -/
def genderVal (r : MRow) : String := normCell r.gender

/-- The sex veto: `if s1 and s2 and s1 != s2: continue`. -/
def sexVeto (r1 r2 : MRow) : Bool :=
  genderVal r1 != "" && genderVal r2 != "" && genderVal r1 != genderVal r2

/-- One candidate pair is confirmed as an identity conflict iff
`similar(name1, name2) > 0.85` and the sex veto does not fire. -/
def confirmPair (r1 r2 : MRow) : Bool :=
  simAbove (fuzzyName r1) (fuzzyName r2) && !sexVeto r1 r2

/-- `candidates = df_m[df_m['DATA_STATUS'] == 'CLEAN']`. -/
def candidateRows (ts : List TRow) : List TRow :=
  ts.filter (fun t => t.status == "CLEAN")

/-- Loose signatures occurring at least twice among the candidates
(`duplicated(subset=['LOOSE_SIG'], keep=False)`), each once, in the sorted
order `groupby` iterates them. -/
def dupSigs (cs : List TRow) : List String :=
  isort strLe (((cs.map (fun t => looseSig t.row)).filter
      (fun s => 2 ≤ (cs.map (fun t => looseSig t.row)).count s)).dedup)

def groupOf (cs : List TRow) (s : String) : List TRow :=
  cs.filter (fun t => looseSig t.row == s)

/-- The nested `for i ... for j in range(i+1, ...)` pair enumeration of one
signature group, carrying the snapshot rows the loop body reads. -/
def pairsOfGroup : List TRow → List (Nat × Nat × MRow × MRow)
  | [] => []
  | t :: rest => rest.map (fun u => (t.idx, u.idx, t.row, u.row)) ++ pairsOfGroup rest

/-- All candidate pairs in iteration order: signature groups in sorted
order, pairs inside a group in nested-loop order. -/
def pairList (ts : List TRow) : List (Nat × Nat × MRow × MRow) :=
  (dupSigs (candidateRows ts)).flatMap
    (fun s => pairsOfGroup (groupOf (candidateRows ts) s))

/-- `%04d` formatting of the fuzzy counter. -/
def pad4 (n : Nat) : String :=
  let s := toString n
  if s.length < 4 then String.mk (List.replicate (4 - s.length) '0') ++ s else s

def fuzzyGid (n : Nat) : String := "FUZZY-" ++ pad4 n

/-- The loop body applied to one of the two confirmed rows: set status,
append to the tag, overwrite the conflict group. -/
def confirmMark (gid : String) (t : TRow) : TRow :=
  { t with status := "ERROR",
           errorTag := t.errorTag ++ "[Identity Conflict] ",
           conflictGroup := gid }

def confirmOne (i j : Nat) (gid : String) (t : TRow) : TRow :=
  if t.idx = i ∨ t.idx = j then confirmMark gid t else t

/-- The fuzzy-matching loop: pairs processed in order; a confirmed pair
marks both rows (by dataframe index) and increments the counter. -/
def fuzzyFold : List TRow → List (Nat × Nat × MRow × MRow) → Nat → List TRow
  | st, [], _ => st
  | st, (i, j, r1, r2) :: ps, c =>
    if confirmPair r1 r2 then fuzzyFold (st.map (confirmOne i j (fuzzyGid c))) ps (c + 1)
    else fuzzyFold st ps c

def fuzzyStep (ts : List TRow) : List TRow := fuzzyFold ts (pairList ts) 1

/-- The pre-merge triage: strict duplicates then fuzzy identity conflicts. -/
def fullTriage (ml : List MRow) : List TRow := fuzzyStep (strictStep (triageInit ml))

/- ----- merge and integrity check ----- -/

/-- A row of the merged frame: the masterlist part plus the matched
parcel part (`none` on a left-join miss; `HAS_PARCEL` is its presence). -/
structure JRow where
  t : TRow
  parcel : Option PRow
deriving DecidableEq, Repr

def parcelMatches (ps : List PRow) (t : TRow) : List PRow :=
  ps.filter (fun p => pKeyId p == keyId t.row)

/-- The 1:N left-join fan-out of one clean masterlist row. -/
def rowsFor (ps : List PRow) (t : TRow) : List JRow :=
  match parcelMatches ps t with
  | [] => [⟨t, none⟩]
  | l => l.map (fun p => ⟨t, some p⟩)

def cleanRows (ts : List TRow) : List TRow :=
  ts.filter (fun t => t.status == "CLEAN")

def errorRows (ts : List TRow) : List TRow :=
  ts.filter (fun t => t.status == "ERROR")

/-- `pd.merge(df_m_clean, df_p, on='KEY_ID', how='left')`. -/
def mergeStep (ts : List TRow) (ps : List PRow) : List JRow :=
  (cleanRows ts).flatMap (rowsFor ps)

/-- The values treated as empty by the integrity check. -/
def emptyTokens : List String := ["NAN", "NONE", "", "NAT", "NULL"]

def cellEmpty (v : Option String) : Bool := emptyTokens.contains (normCell v)

/-- One entry of `INTEGRITY_MAP`: the display name (`m_col.upper()`), the
masterlist accessor and the parcel accessor. -/
structure IField where
  fname : String
  mval : MRow → Option String
  pval : PRow → Option String

/-- The whitelisted bio-data entries of `INTEGRITY_MAP` (names/addresses
are commented out in the source and therefore absent). -/
def bioIntegrityFields : List IField :=
  [⟨"BIRTHDAY", MRow.birthday, PRow.birthdate⟩,
   ⟨"GENDER", MRow.gender, PRow.gender⟩,
   ⟨"FARMER", MRow.farmer, PRow.farmer⟩,
   ⟨"FARMWORKER", MRow.farmworker, PRow.farmworker⟩,
   ⟨"FISHERFOLK", MRow.fisherfolk, PRow.fisherfolk⟩]

def integrityFields : List IField :=
  ⟨"RSBSA_NO", MRow.rsbsa_no, PRow.ffrs⟩ :: bioIntegrityFields

/-- `not is_empty_m and not is_empty_p and val_m != val_p`. -/
def fieldMismatch (f : IField) (m : MRow) (p : PRow) : Bool :=
  !cellEmpty (f.mval m) && !cellEmpty (f.pval p) &&
    (normCell (f.mval m) != normCell (f.pval p))

def mismatchText (f : IField) (m : MRow) (p : PRow) : String :=
  f.fname ++ " (" ++ normCell (f.mval m) ++ " != " ++ normCell (f.pval p) ++ ")"

def mismatchList (m : MRow) (p : PRow) : List String :=
  (integrityFields.filter (fun f => fieldMismatch f m p)).map (fun f => mismatchText f m p)

/-- `'; '.join(mismatches)`. -/
def joinSemi : List String → String
  | [] => ""
  | [s] => s
  | s :: rest => s ++ "; " ++ joinSemi rest

/-- The post-merge integrity check on one merged row (rows without a
parcel are outside `mask_has_parcel` and untouched). -/
def integrityOne (j : JRow) : JRow :=
  match j.parcel with
  | none => j
  | some p =>
    let ms := mismatchList j.t.row p
    if ms.isEmpty then j
    else { j with t := { j.t with
              status := "ERROR",
              errorTag := "[Data Mismatch] " ++ joinSemi ms,
              conflictGroup := "DATA-ERR-" ++ keyId j.t.row } }

def integrityStep (js : List JRow) : List JRow := js.map integrityOne

def mode2Merged (ml : List MRow) (ps : List PRow) : List JRow :=
  integrityStep (mergeStep (fullTriage ml) ps)

def mode2Valid (ml : List MRow) (ps : List PRow) : List JRow :=
  (mode2Merged ml ps).filter (fun j => j.t.status == "CLEAN")

/-- Sheet 'Clean - With Parcels'. -/
def mode2WithParcels (ml : List MRow) (ps : List PRow) : List JRow :=
  (mode2Valid ml ps).filter (fun j => j.parcel.isSome)

/-- Sheet 'Clean - No Parcels'. -/
def mode2NoParcels (ml : List MRow) (ps : List PRow) : List JRow :=
  (mode2Valid ml ps).filter (fun j => !j.parcel.isSome)

/-- Sheet 'Erroneous & Conflicts': the pre-merge error rows stacked with
the merged rows flagged by the integrity check. -/
def mode2Errors (ml : List MRow) (ps : List PRow) : List JRow :=
  (errorRows (fullTriage ml)).map (fun t => (⟨t, none⟩ : JRow)) ++
    (mode2Merged ml ps).filter (fun j => j.t.status == "ERROR")

/-- The three output partitions of a Mode 2 run:
`('Clean - With Parcels', 'Clean - No Parcels', 'Erroneous & Conflicts')`.
Output sorting is cosmetic and omitted. -/
def mode2Partitions (ml : List MRow) (ps : List PRow) :
    List JRow × List JRow × List JRow :=
  (mode2WithParcels ml ps, mode2NoParcels ml ps, mode2Errors ml ps)

/-- Does a partition contain (a row derived from) masterlist record `i`? -/
def hasIdx (l : List JRow) (i : Nat) : Bool := l.any (fun j => j.t.idx == i)

def b2n (b : Bool) : Nat := if b then 1 else 0

/-- In how many of the three output partitions does record `i` appear? -/
def partitionsContaining (ml : List MRow) (ps : List PRow) (i : Nat) : Nat :=
  b2n (hasIdx (mode2Partitions ml ps).1 i) +
    b2n (hasIdx (mode2Partitions ml ps).2.1 i) +
    b2n (hasIdx (mode2Partitions ml ps).2.2 i)

/-- Number of parcel rows joining a given key. -/
def matchCount (ps : List PRow) (k : String) : Nat :=
  ps.countP (fun p => pKeyId p == k)

/- ===================== calendar days ===================== -/

/-- Day number of a proleptic-Gregorian civil date (the standard
era/year-of-era formulation); differences of `daysFromCivil` values equal
the exact day counts that `(ref_date - birthday).dt.days` and pandas
`Timestamp` comparisons are based on. -/
def daysFromCivil (y m d : Nat) : Int :=
  let yShift : Nat := if m ≤ 2 then y - 1 else y
  let era := yShift / 400
  let yoe := yShift % 400
  let mp := (m + 9) % 12
  let doy := (153 * mp + 2) / 5 + d - 1
  let doe := yoe * 365 + yoe / 4 - yoe / 100 + doy
  (era * 146097 + doe : Int) - 719468

/- ===================== Mode 5: process_single_geotag_logic ===================== -/

/-- A numeric-column cell: a number, free text, or NaN. -/
inductive Cell where
  | num (q : ℚ)
  | text (s : String)
  | na
deriving DecidableEq, Repr

/-- `normalize_commodity`: `str(val).strip().upper()` then keyword buckets. -/
def normalize_commodity (v : Option String) : String :=
  let s := pyUpper (pyStrip (pyStr v))
  if containsSub s "RICE" || containsSub s "PALAY" then "RICE"
  else if containsSub s "CORN" then "CORN"
  else if containsSub s "SUGAR" then "SUGAR"
  else "OTHER"

/-- A geotag row (the `TARGET_COLS_GEOTAG` columns the logic reads).
`trackDate` is the value after `pd.to_datetime(..., errors='coerce')`:
a day number, or `none` for NaT. -/
structure GRow where
  georefId : String
  rsbsaId : String
  commodity : Option String
  declaredArea : Cell
  verifiedArea : Cell
  trackDate : Option Int
  uploader : Option String
deriving DecidableEq, Repr

/-- A Mode 5 parcel-reference row after loading/renaming
(`KEY_ID`, `CROP AREA`, `COMMODITY`). -/
structure P5Row where
  pkey : String
  cropArea : Cell
  comm : Option String
deriving DecidableEq, Repr

/-- `drop_duplicates(subset=[key], keep='first')`. -/
def dedupFirstBy {α : Type} (key : α → String) : List α → List String → List α
  | [], _ => []
  | x :: xs, seen =>
    if seen.contains (key x) then dedupFirstBy key xs seen
    else x :: dedupFirstBy key xs (key x :: seen)

def dropDupBy {α : Type} (key : α → String) (l : List α) : List α :=
  dedupFirstBy key l []

/-- A merged geotag/parcel row (`none` = left-join miss, all parcel
columns NaN). -/
structure J5Row where
  g : GRow
  parcel : Option P5Row
deriving DecidableEq, Repr

/-- `is_match`: false when `COMMODITY_parcel` is NaN (including join
misses), else equality of normalised commodities. -/
def j5Match (j : J5Row) : Bool :=
  match j.parcel with
  | none => false
  | some p =>
    match p.comm with
    | none => false
    | some c => normalize_commodity j.g.commodity == normalize_commodity (some c)

def p5Matches (ps : List P5Row) (g : GRow) : List P5Row :=
  ps.filter (fun p => p.pkey == g.rsbsaId)

def rows5For (ps : List P5Row) (g : GRow) : List J5Row :=
  match p5Matches ps g with
  | [] => [⟨g, none⟩]
  | l => l.map (fun p => ⟨g, some p⟩)

/-- `pd.merge(df_clean_geo, df_parcel, left_on='RSBSA ID', right_on='KEY_ID', how='left')`. -/
def merge5 (gs : List GRow) (ps : List P5Row) : List J5Row :=
  gs.flatMap (rows5For ps)

/-- Strict code-point order on strings. -/
def strLtChars : List Char → List Char → Bool
  | [], [] => false
  | [], _ :: _ => true
  | _ :: _, [] => false
  | a :: as, b :: bs => if a == b then strLtChars as bs else decide (a.toNat < b.toNat)

def strLt (a b : String) : Bool := strLtChars a.data b.data

/-- Sort rank of `is_match` under `ascending=[True, False]`: matching rows
first within a `GEOREF ID` group. -/
def matchRank (j : J5Row) : Nat := if j5Match j then 0 else 1

/-- The comparison realising `sort_values(by=['GEOREF ID', 'is_match'],
ascending=[True, False])`. -/
def le5 (a b : J5Row) : Bool :=
  strLt a.g.georefId b.g.georefId ||
    (a.g.georefId == b.g.georefId && decide (matchRank a ≤ matchRank b))

/-- The Mode 5 collapse: GEOREF dedup, 1:N merge, sort by
(GEOREF ID asc, is_match desc), keep the first row per GEOREF ID. -/
def collapse5 (gs : List GRow) (ps : List P5Row) : List J5Row :=
  dropDupBy (fun j => j.g.georefId) (isort le5 (merge5 (dropDupBy GRow.georefId gs) ps))

/-- `finalize_crop_area`. -/
def finalCrop (j : J5Row) : Cell :=
  match j.parcel with
  | none => Cell.text "ID NOT FOUND"
  | some p => if !j5Match j then Cell.text "COMMODITY MISMATCH" else p.cropArea

/- ----- calc_findings ----- -/

def allDigits (l : List Char) : Bool := l.all (fun c => c.isDigit)

def digitsToNat (l : List Char) : Nat :=
  l.foldl (fun acc c => acc * 10 + (c.toNat - 48)) 0

/-- Unsigned part of Python `float(str)` restricted to plain decimal
notation `digits[.digits]` / `.digits` (the shapes occurring in area
columns); every other text raises, i.e. parses to `none`. -/
def pyFloatCore (l : List Char) : Option ℚ :=
  match l.splitOn '.' with
  | [a] => if a ≠ [] ∧ allDigits a then some (digitsToNat a) else none
  | [a, b] =>
    if (a ≠ [] ∨ b ≠ []) ∧ allDigits a ∧ allDigits b then
      some ((digitsToNat a : ℚ) + (digitsToNat b : ℚ) / (10 ^ b.length))
    else none
  | _ => none

/-- Python `float(s)` on text (sign and surrounding whitespace allowed). -/
def pyFloat (s : String) : Option ℚ :=
  match stripChars s.data with
  | '-' :: rest => (pyFloatCore rest).map (fun q => -q)
  | '+' :: rest => pyFloatCore rest
  | t => pyFloatCore t

/-- The guarded comparison `float(ver_val) > float(crop_val) + 2`:
a text that `float()` rejects raises and the `except: pass` keeps the
verdict "OK"; NaN compares false. -/
def aboveCheck (ver : Cell) (c : ℚ) : Bool :=
  match ver with
  | .num v => decide (c + 2 < v)
  | .na => false
  | .text s =>
    match pyFloat s with
    | some v => decide (c + 2 < v)
    | none => false

/-- `pd.Timestamp("2024-01-01")` as a day number. -/
def cutoffDay : Int := daysFromCivil 2024 1 1

/-- `calc_findings(row)` as a function of the parsed track date, the
finalised `CROP AREA` cell and the raw `VERIFIED AREA (Ha)` cell. -/
def calc_findings (dt : Option Int) (crop : Cell) (ver : Cell) : String :=
  match dt with
  | none => "INVALID DATE (< 2024)"
  | some d =>
    if d < cutoffDay then "INVALID DATE (< 2024)"
    else
      match crop with
      | .text _ => "NO CROP AREA"
      | .na => "NO CROP AREA"
      | .num c => if aboveCheck ver c then "ABOVE" else "OK"

def finding5 (j : J5Row) : String :=
  calc_findings j.g.trackDate (finalCrop j) j.g.verifiedArea

/- ===================== Mode 4: run_regional_analytics_mode4 ===================== -/

/-- `AGE = (ref_date - birthday).dt.days // 365` (Python floor division). -/
def ageOf (refDay bdayDay : Int) : Int := Int.fdiv (refDay - bdayDay) 365

/-- `AGE.between(12, 30)` — the Youth (12-30) bracket count predicate. -/
def inYouth (a : Int) : Bool := decide (12 ≤ a) && decide (a ≤ 30)

/-- `AGE.between(31, 59)` — the Working (31-59) bracket count predicate. -/
def inWorking (a : Int) : Bool := decide (31 ≤ a) && decide (a ≤ 59)

/-- `AGE >= 60` — the Senior (60+) bracket count predicate. -/
def inSenior (a : Int) : Bool := decide (60 ≤ a)

/-- A row of the consolidated analytics input: the grouping-key cells. -/
structure ARow where
  aidx : Nat
  mun : Option String
  bgy : Option String
deriving DecidableEq, Repr

/-- `groupby([col_mun, col_bgy])` key of a row in the CLEAN analytics
(no fillna there): rows with a NaN component carry no key and are
dropped by pandas `groupby` (default `dropna=True`). -/
def cleanKey (r : ARow) : Option (String × String) :=
  match r.mun, r.bgy with
  | some m, some b => some (m, b)
  | _, _ => none

def cleanGroupKeys (rows : List ARow) : List (String × String) :=
  (rows.filterMap cleanKey).dedup

def cleanGroup (rows : List ARow) (k : String × String) : List ARow :=
  rows.filter (fun r => cleanKey r == some k)

/-- Total number of row slots covered by the CLEAN grouping. -/
def cleanGroupedTotal (rows : List ARow) : Nat :=
  ((cleanGroupKeys rows).map (fun k => (cleanGroup rows k).length)).sum

/-- Grouping key in the ERRONEOUS analytics, after
`fillna('UNKNOWN')` on both columns. -/
def errKey (r : ARow) : String × String :=
  (r.mun.getD "UNKNOWN", r.bgy.getD "UNKNOWN")

def errGroupKeys (rows : List ARow) : List (String × String) :=
  (rows.map errKey).dedup

def errGroup (rows : List ARow) (k : String × String) : List ARow :=
  rows.filter (fun r => errKey r == k)

def errGroupedTotal (rows : List ARow) : Nat :=
  ((errGroupKeys rows).map (fun k => (errGroup rows k).length)).sum

/- ===================== raw tables and the Mode 2 schema gate ===================== -/

/-- A raw loaded spreadsheet: headers and rows of cells. -/
structure RawTable where
  headers : List String
  cells : List (List (Option String))
deriving Repr

/-- `[c.strip().lower() for c in df.columns]` (also how `p_cols_map`
keys are formed). -/
def normHeader (s : String) : String := pyLower (pyStrip s)

/-- `'rsbsa_no' in df_m.columns` after lower-casing. -/
def masterHasKey (t : RawTable) : Bool :=
  (t.headers.map normHeader).contains "rsbsa_no"

/-- `'ffrs system generated no.' in p_cols_map`. -/
def parcelHasKey (t : RawTable) : Bool :=
  (t.headers.map normHeader).contains "ffrs system generated no."

def optIdx (hs : List String) (name : String) : Option Nat :=
  hs.findIdx? (fun h => h == name)

/-- Reading cell `i` of a row (a pandas out-of-schema access raises and
aborts the run, modelled upstream). -/
def cellAt (row : List (Option String)) (i : Nat) : Option String :=
  ((row.get? i).getD none)

/-- Typed view of a raw masterlist row, with the fallback column choices
of the source (`df_m.columns[1]` / `df_m.columns[3]` / `'birthdate'`);
a form the code would crash on yields `none` (the surrounding
`try/except` then produces no output).  A column that is absent but
merely optional loads as all-NaN. -/
def mrowOfRaw (hs : List String) (row : List (Option String)) : Option MRow := do
  let ri ← optIdx hs "rsbsa_no"
  let fi ← match optIdx hs "first_name" with
           | some i => some i
           | none => if 1 < hs.length then some 1 else none
  let li ← match optIdx hs "last_name" with
           | some i => some i
           | none => if 3 < hs.length then some 3 else none
  let bi ← match optIdx hs "birthday" with
           | some i => some i
           | none => optIdx hs "birthdate"
  pure { rsbsa_no := cellAt row ri
         first_name := cellAt row fi
         last_name := cellAt row li
         birthday := cellAt row bi
         gender := (optIdx hs "gender").bind (fun i => cellAt row i)
         farmer := (optIdx hs "farmer").bind (fun i => cellAt row i)
         farmworker := (optIdx hs "farmworker").bind (fun i => cellAt row i)
         fisherfolk := (optIdx hs "fisherfolk").bind (fun i => cellAt row i) }

def prowOfRaw (hs : List String) (row : List (Option String)) : Option PRow := do
  let ki ← optIdx hs "ffrs system generated no."
  pure { ffrs := cellAt row ki
         birthdate := (optIdx hs "birthdate").bind (fun i => cellAt row i)
         gender := (optIdx hs "gender").bind (fun i => cellAt row i)
         farmer := (optIdx hs "farmer").bind (fun i => cellAt row i)
         farmworker := (optIdx hs "farmworker").bind (fun i => cellAt row i)
         fisherfolk := (optIdx hs "fisherfolk").bind (fun i => cellAt row i) }

/-- A full Mode 2 run over raw tables: the required-column checks abort
(`return`) before anything is produced; otherwise the triage+join
pipeline runs and its three partitions are the output to be written. -/
def mode2Run (mt pt : RawTable) : Option (List JRow × List JRow × List JRow) :=
  if !masterHasKey mt then none
  else if !parcelHasKey pt then none
  else do
    let ml ← mt.cells.mapM (mrowOfRaw (mt.headers.map normHeader))
    let pl ← pt.cells.mapM (prowOfRaw (pt.headers.map normHeader))
    pure (mode2Partitions ml pl)

/- ===================== general lemmas ===================== -/

theorem initRows_fields (l : List MRow) :
    ∀ (n : Nat) (t : TRow), t ∈ initRows n l →
      t.status = "CLEAN" ∧ t.errorTag = "" ∧ t.conflictGroup = "" := by
  induction l with
  | nil => intro n t ht; simp [initRows] at ht
  | cons r rs ih =>
    intro n t ht
    rcases List.mem_cons.mp ht with rfl | ht
    · exact ⟨rfl, rfl, rfl⟩
    · exact ih (n + 1) t ht

theorem countP_initRows (l : List MRow) (k : String) :
    ∀ n : Nat, (initRows n l).countP (fun u => keyId u.row == k) =
      l.countP (fun r => keyId r == k) := by
  induction l with
  | nil => intro n; rfl
  | cons r rs ih =>
    intro n
    simp only [initRows, List.countP_cons, ih (n + 1)]

theorem strictOne_row (ts : List TRow) (t : TRow) : (strictOne ts t).row = t.row := by
  unfold strictOne; split <;> rfl

theorem strictOne_idx (ts : List TRow) (t : TRow) : (strictOne ts t).idx = t.idx := by
  unfold strictOne; split <;> rfl

/- ===================== C5 ===================== -/

/-- C5: in any masterlist dataset, every record whose strict key occurs at
least twice is marked ERROR by the strict-duplicate step, with the tag
"[Duplicate RSBSA ID]" inside its ERROR_TAG and conflict group
`STRICT-<key>`; no instance of a duplicated key stays CLEAN. -/
theorem strict_duplicates_all_marked (ml : List MRow) (t : TRow)
    (ht : t ∈ strictStep (triageInit ml))
    (hdup : 2 ≤ ml.countP (fun r => keyId r == keyId t.row)) :
    t.status = "ERROR" ∧ containsSub t.errorTag "[Duplicate RSBSA ID]" = true ∧
      t.conflictGroup = "STRICT-" ++ keyId t.row := by
  unfold strictStep at ht
  rw [List.mem_map] at ht
  obtain ⟨u, hu, rfl⟩ := ht
  have hrow : (strictOne (triageInit ml) u).row = u.row := strictOne_row _ _
  rw [hrow] at hdup ⊢
  have hcond : 2 ≤ (triageInit ml).countP (fun v => keyId v.row == keyId u.row) := by
    rw [triageInit, countP_initRows]
    exact hdup
  obtain ⟨-, htag, -⟩ := initRows_fields ml 0 u hu
  unfold strictOne
  rw [if_pos hcond]
  refine ⟨rfl, ?_, rfl⟩
  rw [htag]
  show containsSub ("" ++ "[Duplicate RSBSA ID] ") "[Duplicate RSBSA ID]" = true
  decide

def exC5 : List MRow :=
  [⟨some "A1", some "JUAN", some "CRUZ", some "1990-01-01", some "M", none, none, none⟩,
   ⟨some "a1 ", some "PEDRO", some "SANTOS", some "1980-05-05", some "M", none, none, none⟩]

def exC5T : TRow :=
  ⟨0, ⟨some "A1", some "JUAN", some "CRUZ", some "1990-01-01", some "M", none, none, none⟩,
    "ERROR", "[Duplicate RSBSA ID] ", "STRICT-A1"⟩

theorem strict_duplicates_all_marked_witness :
    exC5T.status = "ERROR" ∧
      containsSub exC5T.errorTag "[Duplicate RSBSA ID]" = true ∧
      exC5T.conflictGroup = "STRICT-" ++ keyId exC5T.row :=
  strict_duplicates_all_marked exC5 exC5T (by decide) (by decide)

/- ===================== C9 ===================== -/

/-- C9: a Mode 2 run whose masterlist has no `rsbsa_no` column, or whose
parcel list has no `FFRS System Generated No.` column, produces no output
at all (the run aborts before anything is written). -/
theorem mode2_schema_abort (mt pt : RawTable)
    (h : masterHasKey mt = false ∨ parcelHasKey pt = false) :
    mode2Run mt pt = none := by
  unfold mode2Run
  rcases h with h | h
  · rw [h]; rfl
  · rw [h]
    by_cases hm : masterHasKey mt <;> simp [hm]

def exC9M : RawTable := ⟨["First Name", "Last Name"], [[some "JUAN", some "CRUZ"]]⟩

def exC9P : RawTable := ⟨["FFRS System Generated No."], [[some "A1"]]⟩

theorem mode2_schema_abort_witness : mode2Run exC9M exC9P = none :=
  mode2_schema_abort exC9M exC9P (Or.inl (by decide))

/- ===================== C10 ===================== -/

/-- C10: for a collapsed row with a valid (on/after the 2024-01-01
cutoff) track date and a numeric CROP AREA, an unparseable
`VERIFIED AREA (Ha)` text always yields the verdict "OK" (the raised
`float()` error is swallowed by `except: pass`). -/
theorem unparseable_verified_area_ok (j : J5Row) (d : Int) (c : ℚ) (s : String)
    (hd : j.g.trackDate = some d) (hcut : cutoffDay ≤ d)
    (hc : finalCrop j = Cell.num c) (hv : j.g.verifiedArea = Cell.text s)
    (hs : pyFloat s = none) :
    finding5 j = "OK" := by
  unfold finding5 calc_findings
  rw [hd, hc, hv]
  simp only [if_neg (not_lt.mpr hcut)]
  simp only [aboveCheck, hs]
  rfl

def exC10 : J5Row :=
  ⟨⟨"G1", "R1", some "Rice", Cell.num 1, Cell.text "N/A", some (daysFromCivil 2025 3 1),
      some "UP1"⟩,
    some ⟨"R1", Cell.num 3, some "Palay"⟩⟩

theorem unparseable_verified_area_ok_witness : finding5 exC10 = "OK" :=
  unparseable_verified_area_ok exC10 (daysFromCivil 2025 3 1) 3 "N/A"
    (by decide) (by decide) (by decide) (by decide) (by decide)

/- ===================== C7 ===================== -/

/-- C7 counterexample: the age the aggregator uses for the spec's own
boundary scenario (reference 2024-10-30, birthdate 1994-10-30) is the
floor division of 10958 days by 365, namely 30 — and 30 is not
10958 / 365.25, so the age used does not equal days divided by 365.25. -/
theorem age_not_days_div_365_25 :
    daysFromCivil 2024 10 30 - daysFromCivil 1994 10 30 = 10958 ∧
      ageOf (daysFromCivil 2024 10 30) (daysFromCivil 1994 10 30) = 30 ∧
      ((ageOf (daysFromCivil 2024 10 30) (daysFromCivil 1994 10 30) : ℚ) ≠
        (10958 : ℚ) / 365.25) := by
  refine ⟨by decide, by decide, ?_⟩
  have h : ageOf (daysFromCivil 2024 10 30) (daysFromCivil 1994 10 30) = 30 := by decide
  rw [h]
  norm_num

/-- C7 amended: the age is the Python floor division of the day
difference by 365 (`// 365`), not a division by 365.25; on the concrete
scenario (reference 2024-10-30, birthdate 1994-10-30, 10958 days) it is
30 and the record is counted as Youth (12-30), not Working (31-59). -/
theorem age_floor_div_365_youth_boundary :
    ageOf (daysFromCivil 2024 10 30) (daysFromCivil 1994 10 30) =
        Int.fdiv 10958 365 ∧
      ageOf (daysFromCivil 2024 10 30) (daysFromCivil 1994 10 30) = 30 ∧
      inYouth (ageOf (daysFromCivil 2024 10 30) (daysFromCivil 1994 10 30)) = true ∧
      inWorking (ageOf (daysFromCivil 2024 10 30) (daysFromCivil 1994 10 30)) = false := by
  refine ⟨by decide, by decide, by decide, by decide⟩

/- ===================== C8 ===================== -/

theorem length_filter_split {α : Type} (p : α → Bool) (l : List α) :
    l.length = (l.filter p).length + (l.filter (fun a => !p a)).length := by
  induction l with
  | nil => rfl
  | cons x xs ih =>
    rw [List.filter_cons, List.filter_cons]
    by_cases h : p x = true <;> simp [h, ih] <;> omega

theorem sum_filter_lengths {α κ : Type} [BEq κ] [LawfulBEq κ] (key : α → κ) :
    ∀ (keys : List κ) (rows : List α), keys.Nodup → (∀ r ∈ rows, key r ∈ keys) →
      (keys.map (fun k => (rows.filter (fun r => key r == k)).length)).sum =
        rows.length := by
  intro keys
  induction keys with
  | nil =>
    intro rows _ hmem
    have : rows = [] := by
      cases rows with
      | nil => rfl
      | cons r rs => exact absurd (hmem r (by simp)) (by simp)
    rw [this]; rfl
  | cons k0 ks ih =>
    intro rows hnd hmem
    rcases List.nodup_cons.mp hnd with ⟨hk0, hks⟩
    have hB : ∀ k ∈ ks, rows.filter (fun r => key r == k) =
        (rows.filter (fun r => !(key r == k0))).filter (fun r => key r == k) := by
      intro k hk
      rw [List.filter_filter]
      refine (List.filter_congr ?_).symm
      intro r _
      by_cases h : (key r == k) = true
      · have heq : key r = k := eq_of_beq h
        have hne : ¬ (key r == k0) = true := by
          intro hc
          have heq0 : key r = k0 := eq_of_beq hc
          have : k = k0 := heq.symm.trans heq0
          exact hk0 (this ▸ hk)
        simp [h, hne]
      · simp [h]
    have hmemB : ∀ r ∈ rows.filter (fun r => !(key r == k0)), key r ∈ ks := by
      intro r hr
      rcases List.mem_filter.mp hr with ⟨hrm, hrk⟩
      rcases List.mem_cons.mp (hmem r hrm) with h | h
      · simp [h] at hrk
      · exact h
    have hsum : (ks.map (fun k => (rows.filter (fun r => key r == k)).length)).sum =
        (rows.filter (fun r => !(key r == k0))).length := by
      rw [List.map_congr_left (fun k hk => by rw [hB k hk])]
      exact ih (rows.filter (fun r => !(key r == k0))) hks hmemB
    simp only [List.map_cons, List.sum_cons, hsum]
    exact (length_filter_split (fun r => key r == k0) rows).symm

/-- Every row is covered exactly once by the erroneous-analytics grouping
(after `fillna('UNKNOWN')` nothing is dropped). -/
theorem errGroupedTotal_eq_length (rows : List ARow) :
    errGroupedTotal rows = rows.length := by
  unfold errGroupedTotal errGroupKeys errGroup
  exact sum_filter_lengths errKey (rows.map errKey).dedup rows
    (List.nodup_dedup _)
    (fun r hr => List.mem_dedup.mpr (List.mem_map_of_mem errKey hr))

/-- C8 counterexample: in the CLEAN analytics the grouping has no
`fillna('UNKNOWN')`, so a record with a missing Municipality is dropped
by `groupby` — with one such record the grouped total is 0, not 1. -/
theorem clean_analytics_drops_missing_key_record :
    cleanGroupedTotal [(⟨0, none, some "BGY1"⟩ : ARow)] = 0 ∧
      ([(⟨0, none, some "BGY1"⟩ : ARow)] : List ARow).length = 1 := by
  exact ⟨by decide, by decide⟩

/-- C8 amended: in the ERRONEOUS analytics, missing Municipality/Barangay
values are coerced to the "UNKNOWN" bucket and no record is dropped from
the totals; in the CLEAN analytics, a record with a missing
Municipality or Barangay belongs to no group and is dropped. -/
theorem err_analytics_unknown_bucket_total (rows : List ARow) (r : ARow)
    (hr : r ∈ rows) :
    errGroupedTotal rows = rows.length ∧
      r ∈ errGroup rows (errKey r) ∧
      (r.mun = none → (errKey r).1 = "UNKNOWN") ∧
      (r.bgy = none → (errKey r).2 = "UNKNOWN") ∧
      (r.mun = none ∨ r.bgy = none → ∀ k, r ∉ cleanGroup rows k) := by
  refine ⟨errGroupedTotal_eq_length rows, ?_, ?_, ?_, ?_⟩
  · unfold errGroup
    rw [List.mem_filter]
    exact ⟨hr, by simp⟩
  · intro h; unfold errKey; rw [h]; rfl
  · intro h; unfold errKey; rw [h]; rfl
  · intro h k hk
    unfold cleanGroup at hk
    rw [List.mem_filter] at hk
    have hck : cleanKey r = none := by
      unfold cleanKey
      rcases h with h | h
      · rw [h]
      · rw [h]; rcases r.mun with _ | m <;> rfl
    rw [hck] at hk
    simp at hk

def exC8 : List ARow := [⟨0, none, some "BGY1"⟩, ⟨1, some "MUN1", some "BGY1"⟩]

theorem err_analytics_unknown_bucket_total_witness :
    errGroupedTotal exC8 = exC8.length ∧
      (⟨0, none, some "BGY1"⟩ : ARow) ∈ errGroup exC8 (errKey ⟨0, none, some "BGY1"⟩) ∧
      ((⟨0, none, some "BGY1"⟩ : ARow).mun = none →
        (errKey ⟨0, none, some "BGY1"⟩).1 = "UNKNOWN") ∧
      ((⟨0, none, some "BGY1"⟩ : ARow).bgy = none →
        (errKey ⟨0, none, some "BGY1"⟩).2 = "UNKNOWN") ∧
      ((⟨0, none, some "BGY1"⟩ : ARow).mun = none ∨
          (⟨0, none, some "BGY1"⟩ : ARow).bgy = none →
        ∀ k, (⟨0, none, some "BGY1"⟩ : ARow) ∉ cleanGroup exC8 k) :=
  err_analytics_unknown_bucket_total exC8 ⟨0, none, some "BGY1"⟩ (by decide)

/- ===================== C3 ===================== -/

def exC3a : MRow := ⟨some "1", some "JUAN", some "CRUZ", some "1990-01-01", none, none, none, none⟩

def exC3b : MRow := ⟨some "2", some "JUAN", some "CRUZ", some "1990-01-01", some "M", none, none, none⟩

/-- C3 counterexample: two candidate records share a loose signature and
have identical first names (similarity 1 > 0.85), one record's gender
cell is missing (NaN) and the other is "M" — the claim says such a pair
is still flagged, but the run leaves both records CLEAN, because the
missing gender stringifies to "NAN", which is non-empty and disagrees
with "M", so the sex veto fires. -/
theorem missing_gender_vetoes_conflict :
    ((17 / 20 : ℚ) < similar (fuzzyName exC3a) (fuzzyName exC3b)) ∧
      exC3a.gender = none ∧
      sexVeto exC3a exC3b = true ∧
      (fullTriage [exC3a, exC3b]).map (fun t => t.status) = ["CLEAN", "CLEAN"] := by
  refine ⟨(simAbove_iff _ _).mp (by decide), by decide, by decide, by decide⟩

/-- C3 amended: for a candidate pair whose first-name similarity exceeds
0.85, the pair is vetoed (not confirmed as an identity conflict) iff both
gender values, stringified and normalised (`str(g).strip().upper()`, so a
missing gender becomes the non-empty text "NAN"), are non-empty and
disagree.  Hence opposite non-empty genders are never flagged, an
empty-string gender on either side never vetoes, and a missing (NaN)
gender vetoes exactly when the other side's normalised gender differs
from "NAN". -/
theorem sex_veto_iff_stringified_genders_differ (r1 r2 : MRow)
    (hsim : (17 / 20 : ℚ) < similar (fuzzyName r1) (fuzzyName r2)) :
    confirmPair r1 r2 = false ↔
      (genderVal r1 ≠ "" ∧ genderVal r2 ≠ "" ∧ genderVal r1 ≠ genderVal r2) := by
  unfold confirmPair
  rw [(simAbove_iff _ _).mpr hsim]
  unfold sexVeto
  cases h1 : (genderVal r1 != "") <;> cases h2 : (genderVal r2 != "") <;>
    cases h3 : (genderVal r1 != genderVal r2) <;>
    simp_all [bne_iff_ne]

def exC3c : MRow := ⟨some "1", some "JUAN", some "CRUZ", some "1990-01-01", some "M", none, none, none⟩

def exC3d : MRow := ⟨some "2", some "JUAN", some "CRUZ", some "1990-01-01", some "F", none, none, none⟩

theorem sex_veto_iff_witness :
    confirmPair exC3c exC3d = false ↔
      (genderVal exC3c ≠ "" ∧ genderVal exC3d ≠ "" ∧ genderVal exC3c ≠ genderVal exC3d) :=
  sex_veto_iff_stringified_genders_differ exC3c exC3d ((simAbove_iff _ _).mp (by decide))

/- ===================== C6 ===================== -/

theorem mem_rowsFor (ps : List PRow) (t : TRow) (j : JRow) (hj : j ∈ rowsFor ps t) :
    j.t = t ∧ ∀ p, j.parcel = some p → p ∈ ps ∧ pKeyId p = keyId t.row := by
  unfold rowsFor at hj
  rcases hpm : parcelMatches ps t with _ | ⟨p0, ps0⟩
  · rw [hpm] at hj
    simp only [List.mem_singleton] at hj
    subst hj
    exact ⟨rfl, by intro p hp; simp at hp⟩
  · rw [hpm] at hj
    rw [List.mem_map] at hj
    obtain ⟨p, hp, rfl⟩ := hj
    have hpm2 : p ∈ parcelMatches ps t := by rw [hpm]; exact hp
    unfold parcelMatches at hpm2
    rcases List.mem_filter.mp hpm2 with ⟨hps, hkey⟩
    refine ⟨rfl, ?_⟩
    intro q hq
    simp only [Option.some.injEq] at hq
    subst hq
    exact ⟨hps, eq_of_beq hkey⟩

theorem mem_mergeStep (ts : List TRow) (ps : List PRow) (j : JRow) :
    j ∈ mergeStep ts ps ↔ ∃ t ∈ cleanRows ts, j ∈ rowsFor ps t := by
  unfold mergeStep
  exact List.mem_flatMap

theorem mergeStep_clean (ts : List TRow) (ps : List PRow) (j : JRow)
    (hj : j ∈ mergeStep ts ps) : j.t.status = "CLEAN" := by
  rcases (mem_mergeStep ts ps j).mp hj with ⟨t, ht, hjt⟩
  rcases List.mem_filter.mp ht with ⟨-, hst⟩
  rw [(mem_rowsFor ps t j hjt).1]
  exact eq_of_beq hst

theorem mergeStep_key (ts : List TRow) (ps : List PRow) (j : JRow)
    (hj : j ∈ mergeStep ts ps) (p : PRow) (hp : j.parcel = some p) :
    pKeyId p = keyId j.t.row := by
  rcases (mem_mergeStep ts ps j).mp hj with ⟨t, _, hjt⟩
  rcases mem_rowsFor ps t j hjt with ⟨hjt2, hkey⟩
  rw [hjt2]
  exact (hkey p hp).2

theorem mismatchList_ne_nil_iff (m : MRow) (p : PRow) :
    mismatchList m p ≠ [] ↔ ∃ f ∈ integrityFields, fieldMismatch f m p = true := by
  unfold mismatchList
  rw [ne_eq, List.map_eq_nil_iff, List.filter_eq_nil_iff]
  push_neg
  constructor
  · rintro ⟨f, hf, hm⟩; exact ⟨f, hf, hm⟩
  · rintro ⟨f, hf, hm⟩; exact ⟨f, hf, hm⟩

theorem integrityOne_none (jt : TRow) : integrityOne ⟨jt, none⟩ = ⟨jt, none⟩ := rfl

theorem integrityOne_some_clean (jt : TRow) (p : PRow)
    (h : mismatchList jt.row p = []) :
    integrityOne ⟨jt, some p⟩ = ⟨jt, some p⟩ := by
  show (if (mismatchList jt.row p).isEmpty then (⟨jt, some p⟩ : JRow)
        else ⟨{ jt with
                  status := "ERROR"
                  errorTag := "[Data Mismatch] " ++ joinSemi (mismatchList jt.row p)
                  conflictGroup := "DATA-ERR-" ++ keyId jt.row }, some p⟩) = ⟨jt, some p⟩
  rw [h]
  rfl

theorem integrityOne_some_err (jt : TRow) (p : PRow)
    (h : mismatchList jt.row p ≠ []) :
    integrityOne ⟨jt, some p⟩ =
      ⟨{ jt with
          status := "ERROR"
          errorTag := "[Data Mismatch] " ++ joinSemi (mismatchList jt.row p)
          conflictGroup := "DATA-ERR-" ++ keyId jt.row }, some p⟩ := by
  have hb : (mismatchList jt.row p).isEmpty = false := by
    cases hl : mismatchList jt.row p with
    | nil => exact absurd hl h
    | cons a l => rfl
  show (if (mismatchList jt.row p).isEmpty then (⟨jt, some p⟩ : JRow)
        else ⟨{ jt with
                  status := "ERROR"
                  errorTag := "[Data Mismatch] " ++ joinSemi (mismatchList jt.row p)
                  conflictGroup := "DATA-ERR-" ++ keyId jt.row }, some p⟩) = _
  rw [hb]
  rfl

/-- C6: a CLEAN joined row is flagged "[Data Mismatch]" ERROR iff some
whitelisted bio-data field (birthday, gender, farmer, farmworker,
fisherfolk) is non-empty on both the masterlist and the parcel side
(NaN/None/NaT/null/empty text all count as empty) and the two normalised
values differ; rows without a matched parcel are never flagged, and the
`rsbsa_no` entry of the integrity map can never fire because the join
equates the normalised keys.  When flagged, the single tag string
accumulates every mismatching field. -/
theorem data_mismatch_iff_nonempty_disagreement (ts : List TRow) (ps : List PRow)
    (j : JRow) (hj : j ∈ mergeStep ts ps) :
    ((integrityOne j).t.status = "ERROR" ↔
      ∃ p, j.parcel = some p ∧ ∃ f ∈ bioIntegrityFields,
        cellEmpty (f.mval j.t.row) = false ∧ cellEmpty (f.pval p) = false ∧
          normCell (f.mval j.t.row) ≠ normCell (f.pval p)) ∧
    (∀ p, j.parcel = some p → mismatchList j.t.row p ≠ [] →
      (integrityOne j).t.errorTag =
        "[Data Mismatch] " ++ joinSemi (mismatchList j.t.row p)) := by
  have hclean := mergeStep_clean ts ps j hj
  have hfm : ∀ p, j.parcel = some p →
      ((∃ f ∈ integrityFields, fieldMismatch f j.t.row p = true) ↔
        (∃ f ∈ bioIntegrityFields,
          cellEmpty (f.mval j.t.row) = false ∧ cellEmpty (f.pval p) = false ∧
            normCell (f.mval j.t.row) ≠ normCell (f.pval p))) := by
    intro p hp
    have hkey := mergeStep_key ts ps j hj p hp
    constructor
    · rintro ⟨f, hf, hm⟩
      rcases List.mem_cons.mp hf with rfl | hfb
      · exfalso
        unfold fieldMismatch at hm
        have hkk : normCell (MRow.rsbsa_no j.t.row) = normCell (PRow.ffrs p) := hkey.symm
        simp only [Bool.and_eq_true, bne_iff_ne, ne_eq] at hm
        exact hm.2 hkk
      · refine ⟨f, hfb, ?_⟩
        unfold fieldMismatch at hm
        simp only [Bool.and_eq_true, Bool.not_eq_true', bne_iff_ne, ne_eq] at hm
        exact ⟨hm.1.1, hm.1.2, hm.2⟩
    · rintro ⟨f, hf, h1, h2, h3⟩
      refine ⟨f, List.mem_cons_of_mem _ hf, ?_⟩
      unfold fieldMismatch
      simp only [Bool.and_eq_true, Bool.not_eq_true', bne_iff_ne, ne_eq]
      exact ⟨⟨h1, h2⟩, h3⟩
  obtain ⟨jt, jp⟩ := j
  rcases jp with _ | p
  · refine ⟨?_, ?_⟩
    · rw [integrityOne_none]
      constructor
      · intro hst; rw [hclean] at hst; exact absurd hst (by decide)
      · rintro ⟨p, hpe, -⟩; exact Option.noConfusion hpe
    · intro p hp; exact Option.noConfusion hp
  · have hkeyed := hfm p rfl
    by_cases hms : mismatchList jt.row p = []
    · rw [integrityOne_some_clean jt p hms]
      refine ⟨?_, ?_⟩
      · constructor
        · intro hst; rw [hclean] at hst; exact absurd hst (by decide)
        · rintro ⟨q, hq, hbio⟩
          injection hq with hq2
          subst hq2
          exact absurd hms ((mismatchList_ne_nil_iff _ _).mpr (hkeyed.mpr hbio))
      · intro q hq hne
        injection hq with hq2
        subst hq2
        exact absurd hms hne
    · rw [integrityOne_some_err jt p hms]
      refine ⟨?_, ?_⟩
      · constructor
        · intro _
          exact ⟨p, rfl, hkeyed.mp ((mismatchList_ne_nil_iff _ _).mp hms)⟩
        · intro _; rfl
      · intro q hq hne
        injection hq with hq2
        subst hq2
        rfl

def exC6T : List TRow :=
  [⟨0, ⟨some "A1", some "JUAN", some "CRUZ", some "1990-01-01", some "M",
      some "YES", none, none⟩, "CLEAN", "", ""⟩]

def exC6P : List PRow :=
  [⟨some "A1", some "1991-01-01", some "F", some "YES", none, none⟩]

def exC6J : JRow :=
  ⟨⟨0, ⟨some "A1", some "JUAN", some "CRUZ", some "1990-01-01", some "M",
      some "YES", none, none⟩, "CLEAN", "", ""⟩,
    some ⟨some "A1", some "1991-01-01", some "F", some "YES", none, none⟩⟩

theorem data_mismatch_iff_witness :
    ((integrityOne exC6J).t.status = "ERROR" ↔
      ∃ p, exC6J.parcel = some p ∧ ∃ f ∈ bioIntegrityFields,
        cellEmpty (f.mval exC6J.t.row) = false ∧ cellEmpty (f.pval p) = false ∧
          normCell (f.mval exC6J.t.row) ≠ normCell (f.pval p)) ∧
    (∀ p, exC6J.parcel = some p → mismatchList exC6J.t.row p ≠ [] →
      (integrityOne exC6J).t.errorTag =
        "[Data Mismatch] " ++ joinSemi (mismatchList exC6J.t.row p)) :=
  data_mismatch_iff_nonempty_disagreement exC6T exC6P exC6J (by decide)

/- ===================== C2 ===================== -/

theorem strData_append (a b : String) : (a ++ b).data = a.data ++ b.data := by
  cases a; cases b; rfl

theorem subChars_nil (l : List Char) : subChars [] l = true := by
  cases l with
  | nil => rfl
  | cons c t => rfl

theorem subChars_append_right (n : List Char) (h2 : List Char) :
    ∀ h1, subChars n h2 = true → subChars n (h1 ++ h2) = true := by
  intro h1
  induction h1 with
  | nil => exact fun h => h
  | cons c t ih =>
    intro h
    show (n.isPrefixOf (c :: (t ++ h2)) || subChars n (t ++ h2)) = true
    rw [ih h]
    exact Bool.or_true _

theorem subChars_append_left (n : List Char) :
    ∀ h1 h2, subChars n h1 = true → subChars n (h1 ++ h2) = true := by
  intro h1
  induction h1 with
  | nil =>
    intro h2 h
    cases n with
    | nil => exact subChars_nil h2
    | cons a l => exact absurd h (by simp [subChars, List.isEmpty])
  | cons c t ih =>
    intro h2 h
    rcases Bool.or_eq_true_iff.mp h with hpre | hsub
    · show (n.isPrefixOf (c :: (t ++ h2)) || subChars n (t ++ h2)) = true
      have hp : n <+: (c :: t) := List.isPrefixOf_iff_prefix.mp hpre
      have hp2 : n <+: (c :: t) ++ h2 := hp.trans (List.prefix_append _ _)
      rw [List.isPrefixOf_iff_prefix.mpr (by simpa using hp2)]
      rfl
    · show (n.isPrefixOf (c :: (t ++ h2)) || subChars n (t ++ h2)) = true
      rw [ih h2 hsub]
      exact Bool.or_true _

theorem containsSub_append_left (a b n : String) (h : containsSub a n = true) :
    containsSub (a ++ b) n = true := by
  unfold containsSub at *
  rw [strData_append]
  exact subChars_append_left n.data a.data b.data h

theorem containsSub_append_right (a b n : String) (h : containsSub b n = true) :
    containsSub (a ++ b) n = true := by
  unfold containsSub at *
  rw [strData_append]
  exact subChars_append_right n.data b.data a.data h

/-- The per-row effect of the whole fuzzy pair loop (the loop body only
updates cells of the two confirmed indices, so the fold over the frame is
a pointwise map; `fuzzyFold_eq_map` proves this). -/
def applyPairs : List (Nat × Nat × MRow × MRow) → Nat → TRow → TRow
  | [], _, t => t
  | (i, j, r1, r2) :: ps, c, t =>
    if confirmPair r1 r2 then applyPairs ps (c + 1) (confirmOne i j (fuzzyGid c) t)
    else applyPairs ps c t

def pairConfirmed (p : Nat × Nat × MRow × MRow) : Bool := confirmPair p.2.2.1 p.2.2.2

theorem fuzzyFold_eq_map :
    ∀ (ps : List (Nat × Nat × MRow × MRow)) (st : List TRow) (c : Nat),
      fuzzyFold st ps c = st.map (applyPairs ps c) := by
  intro ps
  induction ps with
  | nil =>
    intro st c
    show st = st.map (applyPairs [] c)
    have h : st.map (applyPairs [] c) = st.map id := List.map_congr_left (fun t _ => rfl)
    rw [h, List.map_id]
  | cons p ps ih =>
    obtain ⟨i, j, r1, r2⟩ := p
    intro st c
    by_cases hc : confirmPair r1 r2 = true
    · show (if confirmPair r1 r2 then
          fuzzyFold (st.map (confirmOne i j (fuzzyGid c))) ps (c + 1)
        else fuzzyFold st ps c) = _
      rw [if_pos hc, ih, List.map_map]
      exact List.map_congr_left (fun t _ => by simp [applyPairs, hc, Function.comp])
    · show (if confirmPair r1 r2 then
          fuzzyFold (st.map (confirmOne i j (fuzzyGid c))) ps (c + 1)
        else fuzzyFold st ps c) = _
      rw [if_neg hc, ih]
      exact List.map_congr_left (fun t _ => by simp [applyPairs, hc])

theorem confirmOne_idx (i j : Nat) (g : String) (t : TRow) :
    (confirmOne i j g t).idx = t.idx := by
  unfold confirmOne confirmMark
  split <;> rfl

theorem confirmOne_row (i j : Nat) (g : String) (t : TRow) :
    (confirmOne i j g t).row = t.row := by
  unfold confirmOne confirmMark
  split <;> rfl

theorem applyPairs_idx :
    ∀ (ps : List (Nat × Nat × MRow × MRow)) (c : Nat) (t : TRow),
      (applyPairs ps c t).idx = t.idx := by
  intro ps
  induction ps with
  | nil => intro c t; rfl
  | cons p ps ih =>
    obtain ⟨i, j, r1, r2⟩ := p
    intro c t
    by_cases hc : confirmPair r1 r2 = true
    · show (if confirmPair r1 r2 then applyPairs ps (c + 1) (confirmOne i j (fuzzyGid c) t)
        else applyPairs ps c t).idx = t.idx
      rw [if_pos hc, ih, confirmOne_idx]
    · show (if confirmPair r1 r2 then applyPairs ps (c + 1) (confirmOne i j (fuzzyGid c) t)
        else applyPairs ps c t).idx = t.idx
      rw [if_neg hc, ih]

theorem applyPairs_row :
    ∀ (ps : List (Nat × Nat × MRow × MRow)) (c : Nat) (t : TRow),
      (applyPairs ps c t).row = t.row := by
  intro ps
  induction ps with
  | nil => intro c t; rfl
  | cons p ps ih =>
    obtain ⟨i, j, r1, r2⟩ := p
    intro c t
    by_cases hc : confirmPair r1 r2 = true
    · show (if confirmPair r1 r2 then applyPairs ps (c + 1) (confirmOne i j (fuzzyGid c) t)
        else applyPairs ps c t).row = t.row
      rw [if_pos hc, ih, confirmOne_row]
    · show (if confirmPair r1 r2 then applyPairs ps (c + 1) (confirmOne i j (fuzzyGid c) t)
        else applyPairs ps c t).row = t.row
      rw [if_neg hc, ih]

theorem confirmOne_error (i j : Nat) (g : String) (t : TRow)
    (h : t.status = "ERROR") : (confirmOne i j g t).status = "ERROR" := by
  unfold confirmOne confirmMark
  split
  · rfl
  · exact h

theorem confirmOne_tag (i j : Nat) (g : String) (t : TRow) (s : String)
    (h : containsSub t.errorTag s = true) :
    containsSub (confirmOne i j g t).errorTag s = true := by
  unfold confirmOne confirmMark
  split
  · exact containsSub_append_left _ _ _ h
  · exact h

theorem applyPairs_error :
    ∀ (ps : List (Nat × Nat × MRow × MRow)) (c : Nat) (t : TRow),
      t.status = "ERROR" → (applyPairs ps c t).status = "ERROR" := by
  intro ps
  induction ps with
  | nil => intro c t h; exact h
  | cons p ps ih =>
    obtain ⟨i, j, r1, r2⟩ := p
    intro c t h
    by_cases hc : confirmPair r1 r2 = true
    · show (if confirmPair r1 r2 then applyPairs ps (c + 1) (confirmOne i j (fuzzyGid c) t)
        else applyPairs ps c t).status = "ERROR"
      rw [if_pos hc]
      exact ih _ _ (confirmOne_error i j _ t h)
    · show (if confirmPair r1 r2 then applyPairs ps (c + 1) (confirmOne i j (fuzzyGid c) t)
        else applyPairs ps c t).status = "ERROR"
      rw [if_neg hc]
      exact ih _ _ h

theorem applyPairs_tag :
    ∀ (ps : List (Nat × Nat × MRow × MRow)) (c : Nat) (t : TRow) (s : String),
      containsSub t.errorTag s = true →
        containsSub (applyPairs ps c t).errorTag s = true := by
  intro ps
  induction ps with
  | nil => intro c t s h; exact h
  | cons p ps ih =>
    obtain ⟨i, j, r1, r2⟩ := p
    intro c t s h
    by_cases hc : confirmPair r1 r2 = true
    · show containsSub (if confirmPair r1 r2 then
          applyPairs ps (c + 1) (confirmOne i j (fuzzyGid c) t)
        else applyPairs ps c t).errorTag s = true
      rw [if_pos hc]
      exact ih _ _ _ (confirmOne_tag i j _ t s h)
    · show containsSub (if confirmPair r1 r2 then
          applyPairs ps (c + 1) (confirmOne i j (fuzzyGid c) t)
        else applyPairs ps c t).errorTag s = true
      rw [if_neg hc]
      exact ih _ _ _ h

theorem applyPairs_untouched :
    ∀ (ps : List (Nat × Nat × MRow × MRow)) (c : Nat) (t : TRow),
      (∀ p ∈ ps, pairConfirmed p = true → t.idx ≠ p.1 ∧ t.idx ≠ p.2.1) →
        applyPairs ps c t = t := by
  intro ps
  induction ps with
  | nil => intro c t _; rfl
  | cons p ps ih =>
    obtain ⟨i, j, r1, r2⟩ := p
    intro c t h
    by_cases hc : confirmPair r1 r2 = true
    · have hij := h (i, j, r1, r2) (by simp) hc
      have hone : confirmOne i j (fuzzyGid c) t = t := by
        unfold confirmOne
        rw [if_neg]
        rintro (h1 | h2)
        · exact hij.1 h1
        · exact hij.2 h2
      show (if confirmPair r1 r2 then applyPairs ps (c + 1) (confirmOne i j (fuzzyGid c) t)
        else applyPairs ps c t) = t
      rw [if_pos hc, hone]
      exact ih _ _ (fun q hq => h q (by simp [hq]))
    · show (if confirmPair r1 r2 then applyPairs ps (c + 1) (confirmOne i j (fuzzyGid c) t)
        else applyPairs ps c t) = t
      rw [if_neg hc]
      exact ih _ _ (fun q hq => h q (by simp [hq]))

theorem applyPairs_append :
    ∀ (l1 l2 : List (Nat × Nat × MRow × MRow)) (c : Nat) (t : TRow),
      applyPairs (l1 ++ l2) c t =
        applyPairs l2 (c + l1.countP pairConfirmed) (applyPairs l1 c t) := by
  intro l1
  induction l1 with
  | nil => intro l2 c t; simp [applyPairs]
  | cons p l1 ih =>
    obtain ⟨i, j, r1, r2⟩ := p
    intro l2 c t
    by_cases hc : confirmPair r1 r2 = true
    · have hcp : pairConfirmed (i, j, r1, r2) = true := hc
      show (if confirmPair r1 r2 then
          applyPairs (l1 ++ l2) (c + 1) (confirmOne i j (fuzzyGid c) t)
        else applyPairs (l1 ++ l2) c t) = _
      rw [if_pos hc, ih]
      have h1 : c + 1 + l1.countP pairConfirmed =
          c + ((i, j, r1, r2) :: l1).countP pairConfirmed := by
        rw [List.countP_cons, hcp]
        norm_num
        omega
      rw [h1]
      have h2 : applyPairs ((i, j, r1, r2) :: l1) c t =
          applyPairs l1 (c + 1) (confirmOne i j (fuzzyGid c) t) := by
        show (if confirmPair r1 r2 then applyPairs l1 (c + 1) (confirmOne i j (fuzzyGid c) t)
          else applyPairs l1 c t) = _
        rw [if_pos hc]
      rw [h2]
    · have hcp : pairConfirmed (i, j, r1, r2) = false := by
        unfold pairConfirmed
        exact Bool.not_eq_true _ ▸ (by simpa using hc)
      show (if confirmPair r1 r2 then
          applyPairs (l1 ++ l2) (c + 1) (confirmOne i j (fuzzyGid c) t)
        else applyPairs (l1 ++ l2) c t) = _
      rw [if_neg hc, ih]
      have h1 : c + l1.countP pairConfirmed =
          c + ((i, j, r1, r2) :: l1).countP pairConfirmed := by
        rw [List.countP_cons, hcp]
        norm_num
      rw [h1]
      have h2 : applyPairs ((i, j, r1, r2) :: l1) c t = applyPairs l1 c t := by
        show (if confirmPair r1 r2 then applyPairs l1 (c + 1) (confirmOne i j (fuzzyGid c) t)
          else applyPairs l1 c t) = _
        rw [if_neg hc]
      rw [h2]

/-- The conclusion of one confirmed pair, factored per record. -/
theorem applyPairs_confirmed_member (ml : List MRow)
    (l1 l2 : List (Nat × Nat × MRow × MRow)) (i j : Nat) (r1 r2 : MRow)
    (hsplit : pairList (strictStep (triageInit ml)) = l1 ++ (i, j, r1, r2) :: l2)
    (hconf : confirmPair r1 r2 = true)
    (t : TRow) (ht : t ∈ fullTriage ml)
    (hti : t.idx = i ∨ t.idx = j)
    (hlater : ∀ p ∈ l2, pairConfirmed p = true → t.idx ≠ p.1 ∧ t.idx ≠ p.2.1) :
    t.status = "ERROR" ∧ containsSub t.errorTag "[Identity Conflict]" = true ∧
      t.conflictGroup = fuzzyGid (1 + l1.countP pairConfirmed) := by
  unfold fullTriage fuzzyStep at ht
  rw [fuzzyFold_eq_map] at ht
  rw [List.mem_map] at ht
  obtain ⟨t0, ht0, rfl⟩ := ht
  rw [hsplit] at hti ⊢
  rw [applyPairs_append] at hti ⊢
  set t1 := applyPairs l1 1 t0 with ht1
  have hidx1 : (applyPairs ((i, j, r1, r2) :: l2) (1 + l1.countP pairConfirmed) t1).idx
      = t1.idx := applyPairs_idx _ _ _
  have hstep : applyPairs ((i, j, r1, r2) :: l2) (1 + l1.countP pairConfirmed) t1 =
      applyPairs l2 (1 + l1.countP pairConfirmed + 1)
        (confirmOne i j (fuzzyGid (1 + l1.countP pairConfirmed)) t1) := by
    show (if confirmPair r1 r2 then _ else _) = _
    rw [if_pos hconf]
  rw [hstep] at hti ⊢
  have hidx2 : t1.idx = i ∨ t1.idx = j := by
    rw [applyPairs_idx, confirmOne_idx] at hti
    exact hti
  have hmark : confirmOne i j (fuzzyGid (1 + l1.countP pairConfirmed)) t1 =
      confirmMark (fuzzyGid (1 + l1.countP pairConfirmed)) t1 := by
    unfold confirmOne
    rw [if_pos hidx2]
  rw [hmark]
  have hidxm : (confirmMark (fuzzyGid (1 + l1.countP pairConfirmed)) t1).idx = t1.idx := rfl
  have huntouched : applyPairs l2 (1 + l1.countP pairConfirmed + 1)
      (confirmMark (fuzzyGid (1 + l1.countP pairConfirmed)) t1) =
      confirmMark (fuzzyGid (1 + l1.countP pairConfirmed)) t1 := by
    apply applyPairs_untouched
    intro p hp hcp
    rw [hidxm]
    rw [applyPairs_idx, confirmOne_idx] at hti
    have := hlater p hp hcp
    rw [hsplit, applyPairs_append, hstep, applyPairs_idx, hmark, hidxm] at this
    exact this
  rw [huntouched]
  refine ⟨rfl, ?_, rfl⟩
  apply containsSub_append_right
  decide

/-- C2 amended: every pair that the fuzzy matcher confirms sends both
records to ERROR with "[Identity Conflict]" in their tag, and stamps both
with the group id freshly minted for that pair; that id is the final
ConflictGroup of a record only when no later confirmed pair touches the
record again, so two partners of one pair share their group id exactly
when that pair is the last confirmed pair for both (in particular always
when each record has a single partner). -/
theorem fuzzy_confirmed_pair_marked_last_group (ml : List MRow)
    (l1 l2 : List (Nat × Nat × MRow × MRow)) (i j : Nat) (r1 r2 : MRow)
    (hsplit : pairList (strictStep (triageInit ml)) = l1 ++ (i, j, r1, r2) :: l2)
    (hconf : confirmPair r1 r2 = true)
    (hlater : ∀ p ∈ l2, pairConfirmed p = true →
      p.1 ≠ i ∧ p.2.1 ≠ i ∧ p.1 ≠ j ∧ p.2.1 ≠ j)
    (t u : TRow) (ht : t ∈ fullTriage ml) (hu : u ∈ fullTriage ml)
    (hti : t.idx = i) (huj : u.idx = j) :
    t.status = "ERROR" ∧ u.status = "ERROR" ∧
      containsSub t.errorTag "[Identity Conflict]" = true ∧
      containsSub u.errorTag "[Identity Conflict]" = true ∧
      t.conflictGroup = fuzzyGid (1 + l1.countP pairConfirmed) ∧
      u.conflictGroup = t.conflictGroup := by
  have hT := applyPairs_confirmed_member ml l1 l2 i j r1 r2 hsplit hconf t ht
    (Or.inl hti)
    (fun p hp hcp => by
      have := hlater p hp hcp
      rw [hti]
      exact ⟨fun h => this.1 h.symm, fun h => this.2.1 h.symm⟩)
  have hU := applyPairs_confirmed_member ml l1 l2 i j r1 r2 hsplit hconf u hu
    (Or.inr huj)
    (fun p hp hcp => by
      have := hlater p hp hcp
      rw [huj]
      exact ⟨fun h => this.2.2.1 h.symm, fun h => this.2.2.2 h.symm⟩)
  exact ⟨hT.1, hU.1, hT.2.1, hU.2.1, hT.2.2, hU.2.2.trans hT.2.2.symm⟩

def exC2a : MRow := ⟨some "1", some "JUAN", some "CRUZ", some "1990-01-01", some "M", none, none, none⟩

def exC2b : MRow := ⟨some "2", some "JUAN", some "CRUZ", some "1990-01-01", some "M", none, none, none⟩

def exC2c : MRow := ⟨some "3", some "JUAN", some "CRUZ", some "1990-01-01", some "M", none, none, none⟩

/-- C2 counterexample: with three mutually-similar records of one loose
signature, the pair (0, 1) is confirmed, yet after the triage the two
records of that pair carry different ConflictGroup ids (FUZZY-0002 and
FUZZY-0003): later confirmed pairs overwrite the group of a record that
is confirmed against more than one partner. -/
theorem fuzzy_multi_partner_group_differs :
    pairConfirmed (0, 1, exC2a, exC2b) = true ∧
      (0, 1, exC2a, exC2b) ∈ pairList (strictStep (triageInit [exC2a, exC2b, exC2c])) ∧
      (fullTriage [exC2a, exC2b, exC2c]).map
          (fun t => (t.idx, t.status, t.conflictGroup)) =
        [(0, "ERROR", "FUZZY-0002"), (1, "ERROR", "FUZZY-0003"),
          (2, "ERROR", "FUZZY-0003")] := by
  refine ⟨by decide, by decide, by decide⟩

def exC2w : List MRow :=
  [⟨some "1", some "JUAN", some "CRUZ", some "1990-01-01", some "M", none, none, none⟩,
   ⟨some "2", some "JUANA", some "CRUZ", some "1990-01-01", some "M", none, none, none⟩]

def exC2wT : TRow :=
  ⟨0, ⟨some "1", some "JUAN", some "CRUZ", some "1990-01-01", some "M", none, none, none⟩,
    "ERROR", "[Identity Conflict] ", "FUZZY-0001"⟩

def exC2wU : TRow :=
  ⟨1, ⟨some "2", some "JUANA", some "CRUZ", some "1990-01-01", some "M", none, none, none⟩,
    "ERROR", "[Identity Conflict] ", "FUZZY-0001"⟩

theorem fuzzy_confirmed_pair_marked_witness :
    exC2wT.status = "ERROR" ∧ exC2wU.status = "ERROR" ∧
      containsSub exC2wT.errorTag "[Identity Conflict]" = true ∧
      containsSub exC2wU.errorTag "[Identity Conflict]" = true ∧
      exC2wT.conflictGroup =
        fuzzyGid (1 + ([] : List (Nat × Nat × MRow × MRow)).countP pairConfirmed) ∧
      exC2wU.conflictGroup = exC2wT.conflictGroup :=
  fuzzy_confirmed_pair_marked_last_group exC2w [] [] 0 1
    ⟨some "1", some "JUAN", some "CRUZ", some "1990-01-01", some "M", none, none, none⟩
    ⟨some "2", some "JUANA", some "CRUZ", some "1990-01-01", some "M", none, none, none⟩
    (by decide) (by decide)
    (fun p hp _ => absurd hp (List.not_mem_nil p))
    exC2wT exC2wU (by decide) (by decide) (by decide) (by decide)

/- ===================== C4 ===================== -/

theorem charEq_of_toNat (a b : Char) (h : a.toNat = b.toNat) : a = b :=
  Char.ext (UInt32.ext h)

theorem strLtChars_irrefl : ∀ l : List Char, strLtChars l l = false := by
  intro l
  induction l with
  | nil => rfl
  | cons a as ih =>
    show (if a == a then strLtChars as as else decide (a.toNat < a.toNat)) = false
    rw [beq_self_eq_true, if_pos rfl]
    exact ih

theorem strLtChars_trans :
    ∀ a b c : List Char, strLtChars a b = true → strLtChars b c = true →
      strLtChars a c = true := by
  intro a
  induction a with
  | nil =>
    intro b c h1 h2
    cases b with
    | nil => exact absurd h1 (by simp [strLtChars])
    | cons b0 bs =>
      cases c with
      | nil => exact absurd h2 (by simp [strLtChars])
      | cons c0 cs => rfl
  | cons a0 as ih =>
    intro b c h1 h2
    cases b with
    | nil => exact absurd h1 (by simp [strLtChars])
    | cons b0 bs =>
      cases c with
      | nil => exact absurd h2 (by simp [strLtChars])
      | cons c0 cs =>
        rw [show strLtChars (a0 :: as) (b0 :: bs) =
          (if a0 == b0 then strLtChars as bs else decide (a0.toNat < b0.toNat)) from rfl] at h1
        rw [show strLtChars (b0 :: bs) (c0 :: cs) =
          (if b0 == c0 then strLtChars bs cs else decide (b0.toNat < c0.toNat)) from rfl] at h2
        show (if a0 == c0 then strLtChars as cs else decide (a0.toNat < c0.toNat)) = true
        by_cases hab : (a0 == b0) = true
        · have heab : a0 = b0 := eq_of_beq hab
          rw [if_pos hab] at h1
          by_cases hbc : (b0 == c0) = true
          · have hebc : b0 = c0 := eq_of_beq hbc
            rw [if_pos hbc] at h2
            have hac : (a0 == c0) = true := by
              rw [heab, hebc]; exact beq_self_eq_true c0
            rw [if_pos hac]
            exact ih bs cs h1 h2
          · rw [if_neg hbc] at h2
            have hlt : b0.toNat < c0.toNat := of_decide_eq_true h2
            have hac : ¬ (a0 == c0) = true := by
              intro hc
              have hce : a0 = c0 := eq_of_beq hc
              rw [heab] at hce
              rw [hce] at hlt
              omega
            rw [if_neg hac]
            rw [heab]
            exact h2
        · rw [if_neg hab] at h1
          have hlt1 : a0.toNat < b0.toNat := of_decide_eq_true h1
          by_cases hbc : (b0 == c0) = true
          · have hebc : b0 = c0 := eq_of_beq hbc
            have hac : ¬ (a0 == c0) = true := by
              intro hc
              have hce : a0 = c0 := eq_of_beq hc
              rw [← hebc] at hce
              rw [hce] at hlt1
              omega
            rw [if_neg hac]
            rw [← hebc]
            exact h1
          · rw [if_neg hbc] at h2
            have hlt2 : b0.toNat < c0.toNat := of_decide_eq_true h2
            have hac : ¬ (a0 == c0) = true := by
              intro hc
              have hce : a0 = c0 := eq_of_beq hc
              have hcn : a0.toNat = c0.toNat := by rw [hce]
              omega
            rw [if_neg hac]
            exact decide_eq_true (by omega)

theorem strLtChars_conn :
    ∀ a b : List Char, strLtChars a b = false → strLtChars b a = false → a = b := by
  intro a
  induction a with
  | nil =>
    intro b h1 _
    cases b with
    | nil => rfl
    | cons b0 bs => exact absurd h1 (by simp [strLtChars])
  | cons a0 as ih =>
    intro b h1 h2
    cases b with
    | nil => exact absurd h2 (by simp [strLtChars])
    | cons b0 bs =>
      rw [show strLtChars (a0 :: as) (b0 :: bs) =
        (if a0 == b0 then strLtChars as bs else decide (a0.toNat < b0.toNat)) from rfl] at h1
      rw [show strLtChars (b0 :: bs) (a0 :: as) =
        (if b0 == a0 then strLtChars bs as else decide (b0.toNat < a0.toNat)) from rfl] at h2
      by_cases hab : (a0 == b0) = true
      · have heab : a0 = b0 := eq_of_beq hab
        have hba : (b0 == a0) = true := by rw [heab]; exact beq_self_eq_true b0
        rw [if_pos hab] at h1
        rw [if_pos hba] at h2
        rw [heab, ih bs h1 h2]
      · have hba : ¬ (b0 == a0) = true := by
          intro hc
          exact hab (by rw [eq_of_beq hc]; exact beq_self_eq_true a0)
        rw [if_neg hab] at h1
        rw [if_neg hba] at h2
        have n1 : ¬ a0.toNat < b0.toNat := of_decide_eq_false h1
        have n2 : ¬ b0.toNat < a0.toNat := of_decide_eq_false h2
        exact absurd (eq_of_beq (show (a0 == b0) = true from by
          have : a0 = b0 := charEq_of_toNat a0 b0 (by omega)
          rw [this]; exact beq_self_eq_true b0)) (fun h => hab (by rw [h]; exact beq_self_eq_true b0))

theorem strEq_of_data (a b : String) (h : a.data = b.data) : a = b := by
  cases a; cases b
  simp only at h
  rw [h]

theorem strLt_irrefl (s : String) : strLt s s = false := strLtChars_irrefl s.data

theorem strLt_trans (a b c : String) (h1 : strLt a b = true) (h2 : strLt b c = true) :
    strLt a c = true := strLtChars_trans a.data b.data c.data h1 h2

theorem strLt_conn (a b : String) (h1 : strLt a b = false) (h2 : strLt b a = false) :
    a = b := strEq_of_data a b (strLtChars_conn a.data b.data h1 h2)

theorem le5_total (a b : J5Row) : (le5 a b || le5 b a) = true := by
  unfold le5
  by_cases h1 : strLt a.g.georefId b.g.georefId = true
  · simp [h1]
  · by_cases h2 : strLt b.g.georefId a.g.georefId = true
    · simp [h2]
    · have heq : a.g.georefId = b.g.georefId :=
        strLt_conn _ _ (Bool.not_eq_true _ ▸ h1) (Bool.not_eq_true _ ▸ h2)
      simp only [heq, beq_self_eq_true, Bool.true_and]
      by_cases hr : matchRank a ≤ matchRank b
      · simp [hr]
      · simp [hr, Nat.le_of_lt (Nat.lt_of_not_le hr)]

theorem le5_trans (a b c : J5Row) (h1 : le5 a b = true) (h2 : le5 b c = true) :
    le5 a c = true := by
  unfold le5 at *
  simp only [Bool.or_eq_true, Bool.and_eq_true, decide_eq_true_eq] at h1 h2 ⊢
  rcases h1 with hab | ⟨haeq, har⟩
  · rcases h2 with hbc | ⟨hbeq, -⟩
    · exact Or.inl (strLt_trans _ _ _ hab hbc)
    · refine Or.inl ?_
      rw [← eq_of_beq hbeq]
      exact hab
  · have he : a.g.georefId = b.g.georefId := eq_of_beq haeq
    rcases h2 with hbc | ⟨hbeq, hbr⟩
    · refine Or.inl ?_
      rw [he]
      exact hbc
    · have he2 : b.g.georefId = c.g.georefId := eq_of_beq hbeq
      refine Or.inr ⟨?_, le_trans har hbr⟩
      rw [he, he2]
      exact beq_self_eq_true _

theorem dedupFirstBy_subset {α : Type} (key : α → String) :
    ∀ (l : List α) (seen : List String) (x : α),
      x ∈ dedupFirstBy key l seen → x ∈ l := by
  intro l
  induction l with
  | nil => intro seen x hx; exact absurd hx (List.not_mem_nil x)
  | cons y ys ih =>
    intro seen x hx
    unfold dedupFirstBy at hx
    by_cases hc : seen.contains (key y) = true
    · rw [if_pos hc] at hx
      exact List.mem_cons_of_mem y (ih seen x hx)
    · rw [if_neg hc] at hx
      rcases List.mem_cons.mp hx with rfl | hx
      · exact List.mem_cons_self x ys
      · exact List.mem_cons_of_mem y (ih _ x hx)

theorem dedupFirstBy_notin_seen {α : Type} (key : α → String) :
    ∀ (l : List α) (seen : List String) (x : α),
      x ∈ dedupFirstBy key l seen → key x ∉ seen := by
  intro l
  induction l with
  | nil => intro seen x hx; exact absurd hx (List.not_mem_nil x)
  | cons y ys ih =>
    intro seen x hx
    unfold dedupFirstBy at hx
    by_cases hc : seen.contains (key y) = true
    · rw [if_pos hc] at hx
      exact ih seen x hx
    · rw [if_neg hc] at hx
      rcases List.mem_cons.mp hx with rfl | hx
      · intro hmem
        exact hc (List.elem_iff.mpr hmem)
      · intro hmem
        exact ih _ x hx (List.mem_cons_of_mem _ hmem)

theorem dedupFirstBy_first {α : Type} (key : α → String) :
    ∀ (l : List α) (seen : List String) (x : α),
      x ∈ dedupFirstBy key l seen →
        ∃ l1 l2, l = l1 ++ x :: l2 ∧ ∀ y ∈ l1, key y ≠ key x := by
  intro l
  induction l with
  | nil => intro seen x hx; exact absurd hx (List.not_mem_nil x)
  | cons y ys ih =>
    intro seen x hx
    unfold dedupFirstBy at hx
    by_cases hc : seen.contains (key y) = true
    · rw [if_pos hc] at hx
      obtain ⟨l1, l2, rfl, hl1⟩ := ih seen x hx
      refine ⟨y :: l1, l2, rfl, ?_⟩
      intro z hz
      rcases List.mem_cons.mp hz with rfl | hz
      · intro hkk
        exact dedupFirstBy_notin_seen key _ seen x hx (hkk ▸ List.elem_iff.mp hc)
      · exact hl1 z hz
    · rw [if_neg hc] at hx
      rcases List.mem_cons.mp hx with rfl | hx
      · exact ⟨[], ys, rfl, by intro z hz; exact absurd hz (List.not_mem_nil z)⟩
      · obtain ⟨l1, l2, rfl, hl1⟩ := ih _ x hx
        refine ⟨y :: l1, l2, rfl, ?_⟩
        intro z hz
        rcases List.mem_cons.mp hz with rfl | hz
        · intro hkk
          exact dedupFirstBy_notin_seen key _ _ x hx (hkk ▸ List.mem_cons_self _ seen)
        · exact hl1 z hz

theorem dedupFirstBy_exists {α : Type} (key : α → String) :
    ∀ (l : List α) (seen : List String) (k : String),
      (∃ x ∈ l, key x = k) → k ∉ seen →
        ∃ y ∈ dedupFirstBy key l seen, key y = k := by
  intro l
  induction l with
  | nil => rintro seen k ⟨x, hx, -⟩ _; exact absurd hx (List.not_mem_nil x)
  | cons y ys ih =>
    rintro seen k ⟨x, hx, hk⟩ hseen
    unfold dedupFirstBy
    by_cases hc : seen.contains (key y) = true
    · rw [if_pos hc]
      rcases List.mem_cons.mp hx with rfl | hx
      · exact absurd (hk ▸ List.elem_iff.mp hc) hseen
      · exact ih seen k ⟨x, hx, hk⟩ hseen
    · rw [if_neg hc]
      by_cases hky : key y = k
      · exact ⟨y, List.mem_cons_self _ _, hky⟩
      · rcases List.mem_cons.mp hx with rfl | hx
        · exact absurd hk hky
        · obtain ⟨z, hz, hzk⟩ := ih (key y :: seen) k ⟨x, hx, hk⟩
            (by
              intro hmem
              rcases List.mem_cons.mp hmem with hh | hh
              · exact hky hh.symm
              · exact hseen hh)
          exact ⟨z, List.mem_cons_of_mem y hz, hzk⟩

theorem dedupFirstBy_keys_pairwise {α : Type} (key : α → String) :
    ∀ (l : List α) (seen : List String),
      (dedupFirstBy key l seen).Pairwise (fun a b => key a ≠ key b) := by
  intro l
  induction l with
  | nil => intro seen; exact List.Pairwise.nil
  | cons y ys ih =>
    intro seen
    unfold dedupFirstBy
    by_cases hc : seen.contains (key y) = true
    · rw [if_pos hc]
      exact ih seen
    · rw [if_neg hc]
      refine List.pairwise_cons.mpr ⟨?_, ih _⟩
      intro z hz hkk
      exact dedupFirstBy_notin_seen key ys _ z hz (hkk ▸ List.mem_cons_self _ seen)

theorem dropDupBy_unique {α : Type} (key : α → String) (l : List α) (x y : α)
    (hx : x ∈ dropDupBy key l) (hy : y ∈ dropDupBy key l) (hkey : key x = key y) :
    x = y := by
  by_contra hne
  exact (dedupFirstBy_keys_pairwise key l []).forall
    (fun a b (h : key a ≠ key b) => (fun hh => h hh.symm)) hx hy hne hkey

theorem mem_rows5For (ps : List P5Row) (g : GRow) (j : J5Row)
    (hj : j ∈ rows5For ps g) :
    j.g = g ∧ ∀ p, j.parcel = some p → p ∈ ps ∧ p.pkey = g.rsbsaId := by
  unfold rows5For at hj
  rcases hpm : p5Matches ps g with _ | ⟨p0, ps0⟩
  · rw [hpm] at hj
    simp only [List.mem_singleton] at hj
    subst hj
    exact ⟨rfl, by intro p hp; simp at hp⟩
  · rw [hpm] at hj
    rw [List.mem_map] at hj
    obtain ⟨p, hp, rfl⟩ := hj
    have hpm2 : p ∈ p5Matches ps g := by rw [hpm]; exact hp
    unfold p5Matches at hpm2
    rcases List.mem_filter.mp hpm2 with ⟨hps, hkeyb⟩
    refine ⟨rfl, ?_⟩
    intro q hq
    simp only [Option.some.injEq] at hq
    subst hq
    exact ⟨hps, eq_of_beq hkeyb⟩

theorem rows5For_match_mem (ps : List P5Row) (g : GRow) (p : P5Row)
    (hp : p ∈ ps) (hkey : p.pkey = g.rsbsaId) :
    (⟨g, some p⟩ : J5Row) ∈ rows5For ps g := by
  have hpm : p ∈ p5Matches ps g := by
    unfold p5Matches
    exact List.mem_filter.mpr ⟨hp, by rw [hkey]; exact beq_self_eq_true _⟩
  unfold rows5For
  rcases hm : p5Matches ps g with _ | ⟨p0, ps0⟩
  · rw [hm] at hpm
    exact absurd hpm (List.not_mem_nil p)
  · rw [hm] at hpm
    exact List.mem_map.mpr ⟨p, hpm, rfl⟩

theorem mem_merge5 (gs : List GRow) (ps : List P5Row) (j : J5Row) :
    j ∈ merge5 gs ps ↔ ∃ g ∈ gs, j ∈ rows5For ps g := by
  unfold merge5
  exact List.mem_flatMap

theorem j5Match_parcel (r : J5Row) (hm : j5Match r = true) :
    ∃ p, r.parcel = some p := by
  obtain ⟨rg, rp⟩ := r
  cases rp with
  | none =>
    have hf : j5Match ⟨rg, none⟩ = false := rfl
    rw [hf] at hm
    exact Bool.noConfusion hm
  | some p => exact ⟨p, rfl⟩

theorem finalCrop_match (r : J5Row) (p : P5Row) (hp : r.parcel = some p)
    (hm : j5Match r = true) : finalCrop r = p.cropArea := by
  obtain ⟨rg, rp⟩ := r
  simp only at hp
  subst hp
  show (if !j5Match ⟨rg, some p⟩ then Cell.text "COMMODITY MISMATCH" else p.cropArea) =
    p.cropArea
  rw [hm]
  rfl

theorem matchRank_of_false (r : J5Row) (h : j5Match r = false) : matchRank r = 1 := by
  unfold matchRank
  rw [h]
  rfl

theorem matchRank_of_true (r : J5Row) (h : j5Match r = true) : matchRank r = 0 := by
  unfold matchRank
  rw [h]
  rfl
/-- C4: in the Mode 5 collapse, whenever a clean geotag record joins at
least one parcel row with a matching normalised commodity, the single
surviving row for its GEOREF ID has `is_match` true and its final
CROP AREA is the winning reference row's numeric area — never the
"COMMODITY MISMATCH" (or "ID NOT FOUND") sentinel. -/
theorem collapse_keeps_matching_commodity_row
    (gs : List GRow) (ps : List P5Row) (g : GRow)
    (hg : g ∈ dropDupBy GRow.georefId gs)
    (p0 : P5Row) (hp0 : p0 ∈ ps) (hp0key : p0.pkey = g.rsbsaId)
    (hp0match : j5Match ⟨g, some p0⟩ = true)
    (hnum : ∀ p ∈ ps, ∃ q, p.cropArea = Cell.num q) :
    (∃ r ∈ collapse5 gs ps, r.g.georefId = g.georefId) ∧
      ∀ r ∈ collapse5 gs ps, r.g.georefId = g.georefId →
        j5Match r = true ∧
          ∃ p q, r.parcel = some p ∧ p ∈ ps ∧ p.pkey = g.rsbsaId ∧
            finalCrop r = p.cropArea ∧ finalCrop r = Cell.num q ∧
            finalCrop r ≠ Cell.text "COMMODITY MISMATCH" ∧
            finalCrop r ≠ Cell.text "ID NOT FOUND" := by
  have hj0merged : (⟨g, some p0⟩ : J5Row) ∈ merge5 (dropDupBy GRow.georefId gs) ps :=
    (mem_merge5 _ _ _).mpr ⟨g, hg, rows5For_match_mem ps g p0 hp0 hp0key⟩
  have hj0sorted : (⟨g, some p0⟩ : J5Row) ∈
      isort le5 (merge5 (dropDupBy GRow.georefId gs) ps) :=
    (mem_isort _ _ _).mpr hj0merged
  constructor
  · obtain ⟨r, hr, hrk⟩ := dedupFirstBy_exists (fun j => j.g.georefId)
      (isort le5 (merge5 (dropDupBy GRow.georefId gs) ps)) [] g.georefId
      ⟨⟨g, some p0⟩, hj0sorted, rfl⟩ (List.not_mem_nil _)
    exact ⟨r, hr, hrk⟩
  · intro r hr hrk
    have hr2 : r ∈ dedupFirstBy (fun j => j.g.georefId)
        (isort le5 (merge5 (dropDupBy GRow.georefId gs) ps)) [] := hr
    have hrsorted : r ∈ isort le5 (merge5 (dropDupBy GRow.georefId gs) ps) :=
      dedupFirstBy_subset _ _ _ _ hr2
    have hrmerged : r ∈ merge5 (dropDupBy GRow.georefId gs) ps :=
      (mem_isort _ _ _).mp hrsorted
    obtain ⟨g2, hg2, hrrows⟩ := (mem_merge5 _ _ _).mp hrmerged
    obtain ⟨hrg, hrparcel⟩ := mem_rows5For ps g2 r hrrows
    have hgg2 : g2 = g := by
      apply dropDupBy_unique GRow.georefId gs g2 g hg2 hg
      rw [← hrg, hrk]
    have hmatch : j5Match r = true := by
      by_contra hno
      have hnof : j5Match r = false := Bool.not_eq_true _ ▸ hno
      have hne : (⟨g, some p0⟩ : J5Row) ≠ r := by
        intro hh
        rw [← hh] at hnof
        rw [hp0match] at hnof
        exact Bool.noConfusion hnof
      obtain ⟨S1, S2, hS, hS1⟩ := dedupFirstBy_first (fun j => j.g.georefId)
        (isort le5 (merge5 (dropDupBy GRow.georefId gs) ps)) [] r hr2
      have hpair := pairwise_isort le5 le5_trans le5_total
        (merge5 (dropDupBy GRow.georefId gs) ps)
      rw [hS] at hpair hj0sorted
      have hj0S2 : (⟨g, some p0⟩ : J5Row) ∈ S2 := by
        rcases List.mem_append.mp hj0sorted with h1 | h1
        · exfalso
          have hcon := hS1 _ h1
          simp only at hcon
          apply hcon
          show (⟨g, some p0⟩ : J5Row).g.georefId = r.g.georefId
          rw [hrk]
        · rcases List.mem_cons.mp h1 with h2 | h2
          · exact absurd h2 hne
          · exact h2
      rcases List.pairwise_append.mp hpair with ⟨-, hp2, -⟩
      have hle : le5 r ⟨g, some p0⟩ = true := List.rel_of_pairwise_cons hp2 hj0S2
      have hfalse : le5 r ⟨g, some p0⟩ = false := by
        show (strLt r.g.georefId g.georefId ||
          ((r.g.georefId == g.georefId) &&
            decide (matchRank r ≤ matchRank ⟨g, some p0⟩))) = false
        rw [hrk, strLt_irrefl, beq_self_eq_true,
          matchRank_of_false r hnof, matchRank_of_true _ hp0match]
        rfl
      rw [hfalse] at hle
      exact Bool.noConfusion hle
    obtain ⟨p, hp⟩ := j5Match_parcel r hmatch
    obtain ⟨hpps, hpkey⟩ := hrparcel p hp
    rw [hgg2] at hpkey
    have hcrop := finalCrop_match r p hp hmatch
    obtain ⟨q, hq⟩ := hnum p hpps
    refine ⟨hmatch, p, q, hp, hpps, hpkey, hcrop, ?_, ?_, ?_⟩
    · rw [hcrop, hq]
    · rw [hcrop, hq]
      exact fun h => Cell.noConfusion h
    · rw [hcrop, hq]
      exact fun h => Cell.noConfusion h

def exC4G : GRow :=
  ⟨"G1", "R1", some "Rice", Cell.num 1, Cell.num 2, some (daysFromCivil 2025 3 1), some "U1"⟩

def exC4Pbad : P5Row := ⟨"R1", Cell.num 7, some "Banana"⟩

def exC4Pgood : P5Row := ⟨"R1", Cell.num 3, some "Palay"⟩

theorem collapse_keeps_matching_commodity_row_witness :
    (∃ r ∈ collapse5 [exC4G] [exC4Pbad, exC4Pgood], r.g.georefId = exC4G.georefId) ∧
      ∀ r ∈ collapse5 [exC4G] [exC4Pbad, exC4Pgood], r.g.georefId = exC4G.georefId →
        j5Match r = true ∧
          ∃ p q, r.parcel = some p ∧ p ∈ [exC4Pbad, exC4Pgood] ∧
            p.pkey = exC4G.rsbsaId ∧
            finalCrop r = p.cropArea ∧ finalCrop r = Cell.num q ∧
            finalCrop r ≠ Cell.text "COMMODITY MISMATCH" ∧
            finalCrop r ≠ Cell.text "ID NOT FOUND" :=
  collapse_keeps_matching_commodity_row [exC4G] [exC4Pbad, exC4Pgood] exC4G
    (by decide) exC4Pgood (by decide) (by decide) (by decide)
    (fun p hp => by
      rcases List.mem_cons.mp hp with rfl | hp2
      · exact ⟨7, rfl⟩
      · rcases List.mem_cons.mp hp2 with rfl | hp3
        · exact ⟨3, rfl⟩
        · exact absurd hp3 (List.not_mem_nil p))

/- ===================== C1 ===================== -/

theorem initRows_idx_map (l : List MRow) :
    ∀ n, (initRows n l).map TRow.idx = List.range' n l.length := by
  induction l with
  | nil => intro n; rfl
  | cons r rs ih =>
    intro n
    show n :: (initRows (n + 1) rs).map TRow.idx = List.range' n (rs.length + 1)
    rw [ih (n + 1), List.range'_succ]

theorem strictStep_idx_map (ts : List TRow) :
    (strictStep ts).map TRow.idx = ts.map TRow.idx := by
  unfold strictStep
  rw [List.map_map]
  exact List.map_congr_left (fun t _ => strictOne_idx ts t)

theorem fuzzyStep_idx_map (ts : List TRow) :
    (fuzzyStep ts).map TRow.idx = ts.map TRow.idx := by
  unfold fuzzyStep
  rw [fuzzyFold_eq_map, List.map_map]
  exact List.map_congr_left (fun t _ => applyPairs_idx _ _ t)

theorem fullTriage_idx_map (ml : List MRow) :
    (fullTriage ml).map TRow.idx = List.range' 0 ml.length := by
  unfold fullTriage triageInit
  rw [fuzzyStep_idx_map, strictStep_idx_map, initRows_idx_map]

theorem fullTriage_idx_unique (ml : List MRow) (t u : TRow)
    (ht : t ∈ fullTriage ml) (hu : u ∈ fullTriage ml) (h : t.idx = u.idx) :
    t = u := by
  have hnd : ((fullTriage ml).map TRow.idx).Nodup := by
    rw [fullTriage_idx_map]
    exact List.nodup_range' 0 ml.length
  exact List.inj_on_of_nodup_map hnd ht hu h

theorem strictOne_status (ts : List TRow) (t : TRow) :
    (strictOne ts t).status = t.status ∨ (strictOne ts t).status = "ERROR" := by
  unfold strictOne
  split
  · exact Or.inr rfl
  · exact Or.inl rfl

theorem confirmOne_status (i j : Nat) (g : String) (t : TRow) :
    (confirmOne i j g t).status = t.status ∨ (confirmOne i j g t).status = "ERROR" := by
  unfold confirmOne confirmMark
  split
  · exact Or.inr rfl
  · exact Or.inl rfl

theorem applyPairs_status :
    ∀ (ps : List (Nat × Nat × MRow × MRow)) (c : Nat) (t : TRow),
      (applyPairs ps c t).status = t.status ∨ (applyPairs ps c t).status = "ERROR" := by
  intro ps
  induction ps with
  | nil => intro c t; exact Or.inl rfl
  | cons p ps ih =>
    obtain ⟨i, j, r1, r2⟩ := p
    intro c t
    by_cases hc : confirmPair r1 r2 = true
    · have h1 : applyPairs ((i, j, r1, r2) :: ps) c t =
          applyPairs ps (c + 1) (confirmOne i j (fuzzyGid c) t) := by
        show (if confirmPair r1 r2 then _ else _) = _
        rw [if_pos hc]
      rw [h1]
      rcases ih (c + 1) (confirmOne i j (fuzzyGid c) t) with h | h
      · rcases confirmOne_status i j (fuzzyGid c) t with h2 | h2
        · exact Or.inl (h.trans h2)
        · exact Or.inr (h.trans h2)
      · exact Or.inr h
    · have h1 : applyPairs ((i, j, r1, r2) :: ps) c t = applyPairs ps c t := by
        show (if confirmPair r1 r2 then _ else _) = _
        rw [if_neg hc]
      rw [h1]
      exact ih c t

theorem fullTriage_status (ml : List MRow) (t : TRow) (ht : t ∈ fullTriage ml) :
    t.status = "CLEAN" ∨ t.status = "ERROR" := by
  unfold fullTriage fuzzyStep at ht
  rw [fuzzyFold_eq_map, List.mem_map] at ht
  obtain ⟨t1, ht1, rfl⟩ := ht
  unfold strictStep at ht1
  rw [List.mem_map] at ht1
  obtain ⟨t0, ht0, rfl⟩ := ht1
  have h0 : t0.status = "CLEAN" := (initRows_fields ml 0 t0 ht0).1
  rcases applyPairs_status _ _ (strictOne (triageInit ml) t0) with h | h
  · rcases strictOne_status (triageInit ml) t0 with h2 | h2
    · exact Or.inl (h.trans (h2.trans h0))
    · exact Or.inr (h.trans h2)
  · exact Or.inr h

theorem integrityOne_t_idx (j : JRow) : (integrityOne j).t.idx = j.t.idx := by
  obtain ⟨jt, jp⟩ := j
  cases jp with
  | none => rfl
  | some p =>
    by_cases h : mismatchList jt.row p = []
    · rw [integrityOne_some_clean jt p h]
    · rw [integrityOne_some_err jt p h]

theorem hasIdx_iff (l : List JRow) (i : Nat) :
    hasIdx l i = true ↔ ∃ j ∈ l, j.t.idx = i := by
  unfold hasIdx
  rw [List.any_eq_true]
  constructor
  · rintro ⟨j, hj, hb⟩
    exact ⟨j, hj, eq_of_beq hb⟩
  · rintro ⟨j, hj, he⟩
    exact ⟨j, hj, by rw [he]; exact beq_self_eq_true i⟩

theorem rowsFor_of_nil (ps : List PRow) (t : TRow) (h : parcelMatches ps t = []) :
    rowsFor ps t = [⟨t, none⟩] := by
  unfold rowsFor
  rw [h]

theorem rowsFor_of_single (ps : List PRow) (t : TRow) (p : PRow)
    (h : parcelMatches ps t = [p]) : rowsFor ps t = [⟨t, some p⟩] := by
  unfold rowsFor
  rw [h]
  rfl

theorem mode2Merged_mem (ml : List MRow) (ps : List PRow) (t : TRow)
    (hclean : t ∈ cleanRows (fullTriage ml)) (j0 : JRow) (hj0 : j0 ∈ rowsFor ps t) :
    integrityOne j0 ∈ mode2Merged ml ps := by
  unfold mode2Merged integrityStep
  exact List.mem_map_of_mem integrityOne
    ((mem_mergeStep (fullTriage ml) ps j0).mpr ⟨t, hclean, hj0⟩)

theorem mode2Merged_at_idx (ml : List MRow) (ps : List PRow) (t : TRow)
    (ht : t ∈ fullTriage ml) (j0fix : JRow) (hrows : rowsFor ps t = [j0fix]) :
    ∀ j ∈ mode2Merged ml ps, j.t.idx = t.idx → j = integrityOne j0fix := by
  intro j hj hidx
  unfold mode2Merged integrityStep at hj
  rw [List.mem_map] at hj
  obtain ⟨j0, hj0, rfl⟩ := hj
  rw [integrityOne_t_idx] at hidx
  obtain ⟨t2, ht2, hj0r⟩ := (mem_mergeStep _ _ _).mp hj0
  have ht2f : t2 ∈ fullTriage ml := (List.mem_filter.mp ht2).1
  have hj0t : j0.t = t2 := (mem_rowsFor ps t2 j0 hj0r).1
  have ht2t : t2 = t := by
    apply fullTriage_idx_unique ml t2 t ht2f ht
    rw [← hj0t, hidx]
  subst ht2t
  have : j0 ∈ [j0fix] := by rw [← hrows]; exact hj0r
  rw [List.mem_singleton] at this
  rw [this]

theorem mode2Merged_idx_clean (ml : List MRow) (ps : List PRow) (t : TRow)
    (ht : t ∈ fullTriage ml) :
    ∀ j ∈ mode2Merged ml ps, j.t.idx = t.idx → t.status = "CLEAN" := by
  intro j hj hidx
  unfold mode2Merged integrityStep at hj
  rw [List.mem_map] at hj
  obtain ⟨j0, hj0, rfl⟩ := hj
  rw [integrityOne_t_idx] at hidx
  obtain ⟨t2, ht2, hj0r⟩ := (mem_mergeStep _ _ _).mp hj0
  have ht2f := (List.mem_filter.mp ht2).1
  have hst : t2.status = "CLEAN" := eq_of_beq (List.mem_filter.mp ht2).2
  have hj0t : j0.t = t2 := (mem_rowsFor ps t2 j0 hj0r).1
  have h22 : t2 = t := by
    apply fullTriage_idx_unique ml t2 t ht2f ht
    rw [← hj0t, hidx]
  rw [← h22]
  exact hst

/-- C1 amended: a masterlist record whose strict key joins at most one
parcel row appears in exactly one of the three output partitions after a
full Mode 2 triage+join run.  (A record joining K ≥ 2 parcel rows fans
out into K joined rows, which can land in different partitions — see the
counterexample.) -/
theorem mode2_record_in_exactly_one_partition_of_unique_parcel
    (ml : List MRow) (ps : List PRow) (t : TRow) (ht : t ∈ fullTriage ml)
    (hmc : matchCount ps (keyId t.row) ≤ 1) :
    partitionsContaining ml ps t.idx = 1 := by
  show b2n (hasIdx (mode2WithParcels ml ps) t.idx) +
      b2n (hasIdx (mode2NoParcels ml ps) t.idx) +
      b2n (hasIdx (mode2Errors ml ps) t.idx) = 1
  rcases fullTriage_status ml t ht with hstat | hstat
  · -- CLEAN record: the merged frame carries exactly one row for it
    have hclean : t ∈ cleanRows (fullTriage ml) :=
      List.mem_filter.mpr ⟨ht, by rw [hstat]; exact beq_self_eq_true _⟩
    have hlen : (parcelMatches ps t).length ≤ 1 := by
      have heq : matchCount ps (keyId t.row) = (parcelMatches ps t).length := by
        unfold matchCount parcelMatches
        exact List.countP_eq_length_filter _ _
      omega
    rcases hm : parcelMatches ps t with _ | ⟨p, rest⟩
    · -- no parcel row: the single merged row is ⟨t, none⟩, untouched and CLEAN
      have hrows : rowsFor ps t = [⟨t, none⟩] := rowsFor_of_nil ps t hm
      have hmain : ∀ j ∈ mode2Merged ml ps, j.t.idx = t.idx → j = (⟨t, none⟩ : JRow) := by
        intro j hj hidx
        rw [mode2Merged_at_idx ml ps t ht ⟨t, none⟩ hrows j hj hidx, integrityOne_none]
      have hjmem : (⟨t, none⟩ : JRow) ∈ mode2Merged ml ps := by
        have := mode2Merged_mem ml ps t hclean ⟨t, none⟩
          (by rw [hrows]; exact List.mem_singleton.mpr rfl)
        rw [integrityOne_none] at this
        exact this
      have h2 : hasIdx (mode2NoParcels ml ps) t.idx = true := by
        rw [hasIdx_iff]
        refine ⟨⟨t, none⟩, ?_, rfl⟩
        unfold mode2NoParcels mode2Valid
        refine List.mem_filter.mpr ⟨List.mem_filter.mpr ⟨hjmem, ?_⟩, rfl⟩
        show (t.status == "CLEAN") = true
        rw [hstat]
        exact beq_self_eq_true _
      have h1 : hasIdx (mode2WithParcels ml ps) t.idx = false := by
        rw [Bool.eq_false_iff]
        intro hc
        rw [hasIdx_iff] at hc
        obtain ⟨j, hj, hidx⟩ := hc
        unfold mode2WithParcels mode2Valid at hj
        rcases List.mem_filter.mp hj with ⟨hjv, hjs⟩
        rcases List.mem_filter.mp hjv with ⟨hjm, -⟩
        rw [hmain j hjm hidx] at hjs
        exact Bool.noConfusion hjs
      have h3 : hasIdx (mode2Errors ml ps) t.idx = false := by
        rw [Bool.eq_false_iff]
        intro hc
        rw [hasIdx_iff] at hc
        obtain ⟨j, hj, hidx⟩ := hc
        unfold mode2Errors at hj
        rcases List.mem_append.mp hj with hl | hr
        · rw [List.mem_map] at hl
          obtain ⟨u, hu, rfl⟩ := hl
          rcases List.mem_filter.mp hu with ⟨huf, hus⟩
          have hut : u = t := fullTriage_idx_unique ml u t huf ht hidx
          rw [hut] at hus
          have : t.status = "ERROR" := eq_of_beq hus
          rw [hstat] at this
          exact absurd this (by decide)
        · rcases List.mem_filter.mp hr with ⟨hjm, hjs⟩
          rw [hmain j hjm hidx] at hjs
          have : t.status = "ERROR" := eq_of_beq hjs
          rw [hstat] at this
          exact absurd this (by decide)
      rw [h1, h2, h3]
      rfl
    · -- exactly one parcel row
      have hrest : rest = [] := by
        rw [hm] at hlen
        simp only [List.length_cons] at hlen
        exact List.length_eq_zero.mp (by omega)
      subst hrest
      have hrows : rowsFor ps t = [⟨t, some p⟩] := rowsFor_of_single ps t p hm
      by_cases hmis : mismatchList t.row p = []
      · -- no bio-data mismatch: the row stays CLEAN with its parcel
        have hmain : ∀ j ∈ mode2Merged ml ps, j.t.idx = t.idx →
            j = (⟨t, some p⟩ : JRow) := by
          intro j hj hidx
          rw [mode2Merged_at_idx ml ps t ht ⟨t, some p⟩ hrows j hj hidx,
            integrityOne_some_clean t p hmis]
        have hjmem : (⟨t, some p⟩ : JRow) ∈ mode2Merged ml ps := by
          have := mode2Merged_mem ml ps t hclean ⟨t, some p⟩
            (by rw [hrows]; exact List.mem_singleton.mpr rfl)
          rw [integrityOne_some_clean t p hmis] at this
          exact this
        have h1 : hasIdx (mode2WithParcels ml ps) t.idx = true := by
          rw [hasIdx_iff]
          refine ⟨⟨t, some p⟩, ?_, rfl⟩
          unfold mode2WithParcels mode2Valid
          refine List.mem_filter.mpr ⟨List.mem_filter.mpr ⟨hjmem, ?_⟩, rfl⟩
          show (t.status == "CLEAN") = true
          rw [hstat]
          exact beq_self_eq_true _
        have h2 : hasIdx (mode2NoParcels ml ps) t.idx = false := by
          rw [Bool.eq_false_iff]
          intro hc
          rw [hasIdx_iff] at hc
          obtain ⟨j, hj, hidx⟩ := hc
          unfold mode2NoParcels mode2Valid at hj
          rcases List.mem_filter.mp hj with ⟨hjv, hjs⟩
          rcases List.mem_filter.mp hjv with ⟨hjm, -⟩
          rw [hmain j hjm hidx] at hjs
          exact Bool.noConfusion hjs
        have h3 : hasIdx (mode2Errors ml ps) t.idx = false := by
          rw [Bool.eq_false_iff]
          intro hc
          rw [hasIdx_iff] at hc
          obtain ⟨j, hj, hidx⟩ := hc
          unfold mode2Errors at hj
          rcases List.mem_append.mp hj with hl | hr
          · rw [List.mem_map] at hl
            obtain ⟨u, hu, rfl⟩ := hl
            rcases List.mem_filter.mp hu with ⟨huf, hus⟩
            have hut : u = t := fullTriage_idx_unique ml u t huf ht hidx
            rw [hut] at hus
            have : t.status = "ERROR" := eq_of_beq hus
            rw [hstat] at this
            exact absurd this (by decide)
          · rcases List.mem_filter.mp hr with ⟨hjm, hjs⟩
            rw [hmain j hjm hidx] at hjs
            have : t.status = "ERROR" := eq_of_beq hjs
            rw [hstat] at this
            exact absurd this (by decide)
        rw [h1, h2, h3]
        rfl
      · -- a bio-data mismatch flags the single joined row
        have hmark := integrityOne_some_err t p hmis
        have hmain : ∀ j ∈ mode2Merged ml ps, j.t.idx = t.idx →
            j = integrityOne ⟨t, some p⟩ :=
          mode2Merged_at_idx ml ps t ht ⟨t, some p⟩ hrows
        have hjmem : integrityOne (⟨t, some p⟩ : JRow) ∈ mode2Merged ml ps :=
          mode2Merged_mem ml ps t hclean ⟨t, some p⟩
            (by rw [hrows]; exact List.mem_singleton.mpr rfl)
        have h3 : hasIdx (mode2Errors ml ps) t.idx = true := by
          rw [hasIdx_iff]
          refine ⟨integrityOne ⟨t, some p⟩, ?_, ?_⟩
          · unfold mode2Errors
            refine List.mem_append_right _ (List.mem_filter.mpr ⟨hjmem, ?_⟩)
            rw [hmark]
            exact beq_self_eq_true _
          · rw [hmark]
        have h1 : hasIdx (mode2WithParcels ml ps) t.idx = false := by
          rw [Bool.eq_false_iff]
          intro hc
          rw [hasIdx_iff] at hc
          obtain ⟨j, hj, hidx⟩ := hc
          unfold mode2WithParcels mode2Valid at hj
          rcases List.mem_filter.mp hj with ⟨hjv, -⟩
          rcases List.mem_filter.mp hjv with ⟨hjm, hjs⟩
          rw [hmain j hjm hidx, hmark] at hjs
          have : ("ERROR" : String) = "CLEAN" := eq_of_beq hjs
          exact absurd this (by decide)
        have h2 : hasIdx (mode2NoParcels ml ps) t.idx = false := by
          rw [Bool.eq_false_iff]
          intro hc
          rw [hasIdx_iff] at hc
          obtain ⟨j, hj, hidx⟩ := hc
          unfold mode2NoParcels mode2Valid at hj
          rcases List.mem_filter.mp hj with ⟨hjv, -⟩
          rcases List.mem_filter.mp hjv with ⟨hjm, hjs⟩
          rw [hmain j hjm hidx, hmark] at hjs
          have : ("ERROR" : String) = "CLEAN" := eq_of_beq hjs
          exact absurd this (by decide)
        rw [h1, h2, h3]
        rfl
  · -- ERROR record: quarantined before the merge
    have h3 : hasIdx (mode2Errors ml ps) t.idx = true := by
      rw [hasIdx_iff]
      refine ⟨⟨t, none⟩, ?_, rfl⟩
      unfold mode2Errors
      refine List.mem_append_left _ (List.mem_map_of_mem _ ?_)
      exact List.mem_filter.mpr ⟨ht, by rw [hstat]; exact beq_self_eq_true _⟩
    have h1 : hasIdx (mode2WithParcels ml ps) t.idx = false := by
      rw [Bool.eq_false_iff]
      intro hc
      rw [hasIdx_iff] at hc
      obtain ⟨j, hj, hidx⟩ := hc
      unfold mode2WithParcels mode2Valid at hj
      rcases List.mem_filter.mp hj with ⟨hjv, -⟩
      rcases List.mem_filter.mp hjv with ⟨hjm, -⟩
      have := mode2Merged_idx_clean ml ps t ht j hjm hidx
      rw [hstat] at this
      exact absurd this (by decide)
    have h2 : hasIdx (mode2NoParcels ml ps) t.idx = false := by
      rw [Bool.eq_false_iff]
      intro hc
      rw [hasIdx_iff] at hc
      obtain ⟨j, hj, hidx⟩ := hc
      unfold mode2NoParcels mode2Valid at hj
      rcases List.mem_filter.mp hj with ⟨hjv, -⟩
      rcases List.mem_filter.mp hjv with ⟨hjm, -⟩
      have := mode2Merged_idx_clean ml ps t ht j hjm hidx
      rw [hstat] at this
      exact absurd this (by decide)
    rw [h1, h2, h3]
    rfl

def exC1row : MRow :=
  ⟨some "A1", some "JUAN", some "CRUZ", some "1990-01-01", some "M", some "YES", none, none⟩

def exC1M : List MRow := [exC1row]

def exC1P : List PRow :=
  [⟨some "A1", some "1990-01-01", some "M", some "YES", none, none⟩,
   ⟨some "A1", some "1991-01-01", some "M", some "YES", none, none⟩]

/-- C1 counterexample: a single CLEAN masterlist record whose strict key
joins two parcel rows (one of them with a conflicting birthdate) fans out
into two joined rows and ends up in TWO partitions at once — in
'Clean - With Parcels' and in the erroneous sheet — so it does not appear
in exactly one partition. -/
theorem mode2_fanout_record_in_two_partitions :
    matchCount exC1P (keyId exC1row) = 2 ∧
      partitionsContaining exC1M exC1P 0 = 2 ∧
      hasIdx (mode2WithParcels exC1M exC1P) 0 = true ∧
      hasIdx (mode2Errors exC1M exC1P) 0 = true := by
  refine ⟨by decide, by decide, by decide, by decide⟩

def exC1wP : List PRow :=
  [⟨some "A1", some "1990-01-01", some "M", some "YES", none, none⟩]

def exC1wT : TRow := ⟨0, exC1row, "CLEAN", "", ""⟩

theorem mode2_record_in_exactly_one_partition_witness :
    partitionsContaining exC1M exC1wP exC1wT.idx = 1 :=
  mode2_record_in_exactly_one_partition_of_unique_parcel exC1M exC1wP exC1wT
    (by decide) (by decide)
